import Mathlib

/-!
Verification development for the Secret Santa game backend.

The program under study coordinates a gift-exchange game: participants
register under a shared game code, an organizer locks registration, a
randomized cyclic assignment (giver to receiver) is computed and persisted,
and games are eventually deleted, either on request or by an automatic
purge sweep of expired games.

This file gives a shallow embedding of the relevant program parts:

* the draw service (`perform_draw`, `create_cyclic_assignment`,
  `validate_draw`, `verify_draw_properties`) from
  `src/services/draw_service.py`, with the outcome of the random shuffle
  passed in explicitly as the `shuffled` argument;
* the command handlers (`cmd_lock`, `cmd_unlock`, `cmd_join`, `cmd_draw`,
  `cmd_redraw`, `cmd_new`, `cmd_purge_confirm`, `cmd_export`,
  `auto_purge_expired_games`) from `src/src/handlers/`, acting on a pure
  store of game records; database sessions commit all writes of a handler
  at once, so a handler is modelled as a function from the store to either
  an error (store unchanged, matching rollback or no-write) or a new store;
* the game-code generator and format validator from
  `src/utils/code_generator.py`, with codes as lists of characters.

Python dictionaries are modelled as association lists in insertion order
with overwrite-in-place semantics (`dictSet`, `dictGet?`); Python sets are
compared through `List.toFinset`; Python exceptions become error values of
inductive types whose constructors name the distinct raise sites.
-/

/-- Equality of `Except` values is decidable when it is on both sides. -/
instance exceptDecEq {ε α : Type} [DecidableEq ε] [DecidableEq α] :
    DecidableEq (Except ε α) := fun x y =>
  match x, y with
  | .ok a, .ok b =>
      if h : a = b then isTrue (by rw [h])
      else isFalse (fun hc => by cases hc; exact h rfl)
  | .error a, .error b =>
      if h : a = b then isTrue (by rw [h])
      else isFalse (fun hc => by cases hc; exact h rfl)
  | .ok _, .error _ => isFalse (fun hc => by cases hc)
  | .error _, .ok _ => isFalse (fun hc => by cases hc)

/-- Default string used to model total list indexing at in-range indices. -/
def defaultName : String := ""

/-- A draw result: the Python dict from giver name to receiver name,
as an association list in insertion order. -/
abbrev Assignment := List (String × String)

/-- Python dict assignment `d[k] = v`: replace in place if the key exists,
otherwise append at the end. -/
def dictSet (d : Assignment) (k v : String) : Assignment :=
  if d.any (fun kv => kv.1 == k) then
    d.map (fun kv => if kv.1 == k then (k, v) else kv)
  else d ++ [(k, v)]

/-- Python dict lookup `d.get(k)`: value at the first entry whose key is
`k`, if any. -/
def dictGet? (d : Assignment) (k : String) : Option String :=
  (d.find? (fun kv => kv.1 == k)).map (fun kv => kv.2)

/-- The distinct raise sites of the draw service
(`src/services/draw_service.py`): `InsufficientParticipantError`, the
`DrawError` raised for a duplicated name in `perform_draw`, and the
`DrawError` raised by the post-generation validation `_validate_draw`. -/
inductive DrawErrKind where
  | insufficientParticipants
  | duplicateParticipant
  | integrityError
deriving DecidableEq, Repr

/-- `DrawService.MIN_PARTICIPANTS` from `src/services/draw_service.py`. -/
def MIN_PARTICIPANTS : Nat := 3

/-- `DrawService._create_cyclic_assignment`: for each index `i`, map
`participants[i]` to `participants[(i + 1) % n]`, building a dict. -/
def create_cyclic_assignment (participants : List String) : Assignment :=
  (List.range participants.length).foldl
    (fun result i =>
      dictSet result (participants.getD i defaultName)
        (participants.getD ((i + 1) % participants.length) defaultName))
    []

/-- `DrawService._validate_draw`: checks, in source order, the pair count,
absence of self-assignments, that the giver set equals the participant
set, and that the receiver set equals the participant set.  Returns the
raised error if any check fails, `none` if validation passes. -/
def validate_draw (draw_result : Assignment)
    (original_participants : List String) : Option DrawErrKind :=
  if draw_result.length ≠ original_participants.length then
    some .integrityError
  else if draw_result.any (fun kv => kv.1 == kv.2) then
    some .integrityError
  else if ¬ ((draw_result.map Prod.fst).toFinset
      = original_participants.toFinset) then
    some .integrityError
  else if ¬ ((draw_result.map Prod.snd).toFinset
      = original_participants.toFinset) then
    some .integrityError
  else
    none

/-- `DrawService.perform_draw`.  The call to `random.shuffle` is modelled
by the explicit `shuffled` argument: the list the shuffle produced
(theorems about real runs hypothesize that it is a permutation of
`participants`).  Checks, in source order: non-emptiness, the minimum
count, duplicate names (list length versus number of distinct names),
then builds the cyclic assignment and runs `_validate_draw` on it. -/
def perform_draw (shuffled participants : List String) :
    Except DrawErrKind Assignment :=
  if participants.isEmpty then .error .insufficientParticipants
  else if participants.length < MIN_PARTICIPANTS then
    .error .insufficientParticipants
  else if participants.length ≠ participants.dedup.length then
    .error .duplicateParticipant
  else
    let draw_result := create_cyclic_assignment shuffled
    match validate_draw draw_result participants with
    | some e => .error e
    | none => .ok draw_result

/-- Outcome of the cycle-walk loop in
`DrawService.verify_draw_properties`: either the loop finished with the
final value of `current` (`none` models Python `None` after a failed
lookup) and the set of visited names, or the modelling fuel ran out.
A theorem below proves the fuel bound used by `verify_draw_properties`
is never reached, so `fuelOut` models nothing the Python loop does. -/
inductive WalkResult where
  | done (current : Option String) (visited : List String)
  | fuelOut
deriving DecidableEq, Repr

/-- The `while current not in visited` loop of
`DrawService.verify_draw_properties`: add `current` to the visited set,
step through the dict, stop when the lookup fails (Python `None`) or when
a name repeats. -/
def walk (d : Assignment) : Nat → List String → String → WalkResult
  | 0, _, _ => .fuelOut
  | fuel + 1, visited, current =>
    if current ∈ visited then .done (some current) visited
    else
      match dictGet? d current with
      | none => .done none (current :: visited)
      | some nxt => walk d fuel (current :: visited) nxt

/-- The record returned by `DrawService.verify_draw_properties`. -/
structure DrawChecks where
  no_self_assignment : Bool
  is_permutation : Bool
  is_cyclic : Bool
deriving DecidableEq, Repr

/-- `DrawService.verify_draw_properties`: reports whether the mapping has
no self-assignment, whether the giver set equals the receiver set, and
whether the chain from the first key returns to its start after visiting
as many distinct names as there are pairs.  An empty mapping keeps all
three checks true, as in the source. -/
def verify_draw_properties (draw_result : Assignment) : DrawChecks :=
  { no_self_assignment := ! draw_result.any (fun kv => kv.1 == kv.2)
    is_permutation := decide ((draw_result.map Prod.fst).toFinset
      = (draw_result.map Prod.snd).toFinset)
    is_cyclic :=
      match draw_result with
      | [] => true
      | (k, _) :: _ =>
        match walk draw_result (draw_result.length + 2) [] k with
        | .done current visited =>
            decide (current = some k)
              && decide (visited.length = draw_result.length)
        | .fuelOut => false }

/-- Closed form of `create_cyclic_assignment` for duplicate-free input
(a lemma below proves the two agree then): the dict never overwrites, so
it is just the list of pairs in index order. -/
def cycAssignAux (s : List String) : Assignment :=
  (List.range s.length).map
    (fun i => (s.getD i defaultName,
      s.getD ((i + 1) % s.length) defaultName))

/-- The names visited by the cycle walk after `k` steps when it starts
at index `i` of the underlying list (most recent first, as the walk
conses). -/
def ringVisited (s : List String) (i k : Nat) : List String :=
  ((List.range k).map
    (fun m => s.getD ((i + m) % s.length) defaultName)).reverse

/-- A game record, as in `src/src/database/models.py`.  The participants
and draw results owned by the game are stored inside the record: deleting
the record deletes them, which models the cascading delete of
`GameRepository.delete_game`.  Participants are kept in join order
(`get_participants` orders by join time) and assignments in insertion
order. -/
structure Game where
  game_code : String
  creator_chat_id : Int
  is_locked : Bool
  is_drawn : Bool
  auto_purge_at : Option Int
  participants : List String
  assignments : Assignment
deriving DecidableEq, Repr

/-- The persisted store of games. -/
abbrev Store := List Game

/-- `GameRepository.get_game_by_code`. -/
def findGame (st : Store) (code : String) : Option Game :=
  st.find? (fun g => g.game_code == code)

/-- An SQL update of the games whose code is `code` (codes are unique in
any reachable store, so at most one record changes). -/
def updateGame (st : Store) (code : String) (f : Game → Game) : Store :=
  st.map (fun g => if g.game_code == code then f g else g)

/-- `GameRepository.delete_game` together with its cascading deletes. -/
def deleteGame (st : Store) (code : String) : Store :=
  st.filter (fun g => ! (g.game_code == code))

/-- The distinct failure replies of the command handlers in
`src/src/handlers/`.  Each constructor corresponds to one early-return
branch (or caught exception) of a handler. -/
inductive CmdErr where
  | gameNotFound
  | permissionDenied
  | alreadyLocked
  | alreadyOpen
  | gameLockedError
  | insufficientParticipants
  | duplicateName
  | invalidName
  | notLockedError
  | alreadyDrawnError
  | cannotUnlockAfterDraw
  | notDrawnYet
  | drawFailed (e : DrawErrKind)
  | verificationFailed
  | codeCollision
deriving DecidableEq, Repr

/-- `cmd_lock` from `src/src/handlers/game_lock.py`: game must exist, the
caller must be the creator, the game must not already be locked, and at
least `MIN_PARTICIPANTS` participants must have joined; then the game is
locked. -/
def cmd_lock (st : Store) (code : String) (user : Int) : Except CmdErr Store :=
  match findGame st code with
  | none => .error .gameNotFound
  | some game =>
    if game.creator_chat_id ≠ user then .error .permissionDenied
    else if game.is_locked then .error .alreadyLocked
    else if game.participants.length < MIN_PARTICIPANTS then
      .error .insufficientParticipants
    else .ok (updateGame st code (fun g => { g with is_locked := true }))

/-- `cmd_unlock` from `src/src/handlers/game_lock.py`: game must exist,
the caller must be the creator, the draw must not have been performed,
and the game must currently be locked; then the game is unlocked. -/
def cmd_unlock (st : Store) (code : String) (user : Int) :
    Except CmdErr Store :=
  match findGame st code with
  | none => .error .gameNotFound
  | some game =>
    if game.creator_chat_id ≠ user then .error .permissionDenied
    else if game.is_drawn then .error .cannotUnlockAfterDraw
    else if ! game.is_locked then .error .alreadyOpen
    else .ok (updateGame st code (fun g => { g with is_locked := false }))

/-- `cmd_join` from `src/src/handlers/game_join.py`.  The sanitizer and
name validator run before the database session; their verdict is passed
in as the boolean `nameValid` (their internals are outside the scope of
the claims).  Then: game must exist, must not be locked, and the name
must not already be taken in this game; then the participant is added. -/
def cmd_join (st : Store) (code : String) (name : String)
    (nameValid : Bool) : Except CmdErr Store :=
  if nameValid = false then .error .invalidName
  else
    match findGame st code with
    | none => .error .gameNotFound
    | some game =>
      if game.is_locked then .error .gameLockedError
      else if name ∈ game.participants then .error .duplicateName
      else .ok (updateGame st code
        (fun g => { g with participants := g.participants ++ [name] }))

/-- `cmd_draw` from `src/src/handlers/draw.py`: game must exist, the
caller must be the creator, the game must be locked and not yet drawn.
Then `perform_draw` runs (with the shuffle outcome `shuffled`), its
result is re-checked with `verify_draw_properties`, and only if all
three checks hold are the assignment records and the drawn flag
committed, in one database transaction.  Any failure leaves the store
unchanged: the draw errors are caught before any write is issued, and
unexpected exceptions roll the session back. -/
def cmd_draw (st : Store) (code : String) (user : Int)
    (shuffled : List String) : Except CmdErr Store :=
  match findGame st code with
  | none => .error .gameNotFound
  | some game =>
    if game.creator_chat_id ≠ user then .error .permissionDenied
    else if ! game.is_locked then .error .notLockedError
    else if game.is_drawn then .error .alreadyDrawnError
    else
      match perform_draw shuffled game.participants with
      | .error e => .error (.drawFailed e)
      | .ok draw_result =>
        let checks := verify_draw_properties draw_result
        if ! (checks.no_self_assignment && checks.is_permutation
            && checks.is_cyclic) then .error .verificationFailed
        else .ok (updateGame st code (fun g =>
          { g with assignments := draw_result, is_drawn := true }))

/-- `cmd_redraw` from `src/src/handlers/draw.py`: game must exist, the
caller must be the creator, the game must be locked; the drawn flag is
not checked (the redraw bypasses `AlreadyDrawnError` by design).  Old
assignment records are deleted, a fresh draw is computed and saved, all
in one transaction; a draw failure raises out of the session, rolling
back the deletion, so the store is unchanged on error. -/
def cmd_redraw (st : Store) (code : String) (user : Int)
    (shuffled : List String) : Except CmdErr Store :=
  match findGame st code with
  | none => .error .gameNotFound
  | some game =>
    if game.creator_chat_id ≠ user then .error .permissionDenied
    else if ! game.is_locked then .error .notLockedError
    else
      match perform_draw shuffled game.participants with
      | .error e => .error (.drawFailed e)
      | .ok draw_result =>
        .ok (updateGame st code (fun g =>
          { g with assignments := draw_result, is_drawn := true }))

/-- `AUTO_PURGE_DAYS` from `src/src/handlers/game_creation.py`, in the
time unit of the model. -/
def AUTO_PURGE_DAYS : Int := 30

/-- The fresh game record built by `GameRepository.create_game` for
`cmd_new`: open, not drawn, no participants, no assignments, expiring
`AUTO_PURGE_DAYS` after creation. -/
def mkGame (code : String) (user : Int) (now : Int) : Game :=
  { game_code := code
    creator_chat_id := user
    is_locked := false
    is_drawn := false
    auto_purge_at := some (now + AUTO_PURGE_DAYS)
    participants := []
    assignments := [] }

/-- `cmd_new` from `src/src/handlers/game_creation.py`.  The generator
`generate_game_code` retries until it finds a code not present in the
repository, so the committed code is always fresh; the candidate code is
passed in explicitly and the freshness check models the retry loop
(collision exhaustion surfaces as `codeCollision`). -/
def cmd_new (st : Store) (code : String) (user : Int) (now : Int) :
    Except CmdErr Store :=
  if (findGame st code).isSome then .error .codeCollision
  else .ok (st ++ [mkGame code user now])

/-- `callback_purge_confirm` from `src/src/handlers/game_purge.py`: game
must exist and the caller must be the creator; then the game and all its
data are deleted. -/
def cmd_purge_confirm (st : Store) (code : String) (user : Int) :
    Except CmdErr Store :=
  match findGame st code with
  | none => .error .gameNotFound
  | some game =>
    if game.creator_chat_id ≠ user then .error .permissionDenied
    else .ok (deleteGame st code)

/-- `cmd_export` from `src/src/handlers/game_export.py`: read-only; game
must exist, caller must be the creator, and the draw must have been
performed. -/
def cmd_export (st : Store) (code : String) (user : Int) :
    Except CmdErr Assignment :=
  match findGame st code with
  | none => .error .gameNotFound
  | some game =>
    if game.creator_chat_id ≠ user then .error .permissionDenied
    else if ! game.is_drawn then .error .notDrawnYet
    else .ok game.assignments

/-- Whether a game is expired at `now`: its expiration timestamp is
non-null and not after `now` (`GameRepository.get_expired_games`). -/
def isExpired (g : Game) (now : Int) : Bool :=
  match g.auto_purge_at with
  | some t => t ≤ now
  | none => false

/-- `GameRepository.get_expired_games`. -/
def get_expired_games (st : Store) (now : Int) : List Game :=
  st.filter (fun g => isExpired g now)

/-- `auto_purge_expired_games` from `src/src/handlers/game_purge.py`:
fetch the expired games, then try to delete each one independently,
counting successes; a deletion failure (modelled by the oracle
`deleteFails`, which says for which games the delete raises) is caught
and logged, leaving that game in place and the loop running.  Returns
the number of games purged and the resulting store. -/
def auto_purge_expired_games (st : Store) (now : Int)
    (deleteFails : String → Bool) : Nat × Store :=
  (get_expired_games st now).foldl
    (fun acc g =>
      if deleteFails g.game_code then acc
      else (acc.1 + 1, deleteGame acc.2 g.game_code))
    (0, st)

/-- The public operations of the game lifecycle, each carrying the inputs
of the corresponding handler (including the oracles for randomness and
deletion failures). -/
inductive Op where
  | newGame (code : String) (user : Int) (now : Int)
  | join (code : String) (name : String) (nameValid : Bool)
  | lock (code : String) (user : Int)
  | unlock (code : String) (user : Int)
  | draw (code : String) (user : Int) (shuffled : List String)
  | redraw (code : String) (user : Int) (shuffled : List String)
  | exportResults (code : String) (user : Int)
  | purgeConfirm (code : String) (user : Int)
  | purgeSweep (now : Int) (deleteFails : String → Bool)

/-- Run one operation against the store: a failing handler leaves the
store unchanged (its reply is an error message; the session committed no
writes or rolled back). -/
def applyOp (st : Store) : Op → Store
  | .newGame c u n =>
    match cmd_new st c u n with | .ok st' => st' | .error _ => st
  | .join c nm v =>
    match cmd_join st c nm v with | .ok st' => st' | .error _ => st
  | .lock c u =>
    match cmd_lock st c u with | .ok st' => st' | .error _ => st
  | .unlock c u =>
    match cmd_unlock st c u with | .ok st' => st' | .error _ => st
  | .draw c u sh =>
    match cmd_draw st c u sh with | .ok st' => st' | .error _ => st
  | .redraw c u sh =>
    match cmd_redraw st c u sh with | .ok st' => st' | .error _ => st
  | .exportResults _ _ => st
  | .purgeConfirm c u =>
    match cmd_purge_confirm st c u with | .ok st' => st' | .error _ => st
  | .purgeSweep n f => (auto_purge_expired_games st n f).2

/-- Store well-formedness: game codes are unique, as enforced by the
unique constraint on `games.game_code` and the freshness retry loop of
the code generator. -/
def StoreWF (st : Store) : Prop := (st.map Game.game_code).Nodup

/-- The data-model invariant `drawn implies locked`. -/
def DrawnImpliesLocked (st : Store) : Prop :=
  ∀ g ∈ st, g.is_drawn → g.is_locked

/-- The per-game storage invariant relating the drawn flag to the
assignment records: an undrawn game has none, a drawn game has one per
participant. -/
def AssignInv (g : Game) : Prop :=
  (g.is_drawn = false → g.assignments = []) ∧
  (g.is_drawn = true → g.assignments.length = g.participants.length)

/-- `PREFIXES` from `src/utils/code_generator.py`. -/
def PREFIXES : List (List Char) :=
  [['S', 'A', 'N', 'T', 'A'], ['X', 'M', 'A', 'S'], ['G', 'I', 'F', 'T'],
   ['S', 'N', 'O', 'W'], ['J', 'O', 'L', 'L', 'Y'],
   ['M', 'E', 'R', 'R', 'Y']]

/-- `SUFFIX_CHARS` from `src/utils/code_generator.py`: uppercase ASCII
letters followed by digits. -/
def SUFFIX_CHARS : List Char :=
  ['A', 'B', 'C', 'D', 'E', 'F', 'G', 'H', 'I', 'J', 'K', 'L', 'M',
   'N', 'O', 'P', 'Q', 'R', 'S', 'T', 'U', 'V', 'W', 'X', 'Y', 'Z',
   '0', '1', '2', '3', '4', '5', '6', '7', '8', '9']

/-- `MIN_SUFFIX_LENGTH` from `src/utils/code_generator.py`. -/
def MIN_SUFFIX_LENGTH : Nat := 2

/-- `MAX_SUFFIX_LENGTH` from `src/utils/code_generator.py`. -/
def MAX_SUFFIX_LENGTH : Nat := 4

/-- The suffix length chosen by `_generate_code`: for `suffix_length =
None` a random draw from `[MIN, MAX]` (the draw outcome is the argument
`randLen`), otherwise the requested length clamped into `[MIN, MAX]`. -/
def suffixLengthFor (suffix_length : Option Nat) (randLen : Nat) : Nat :=
  match suffix_length with
  | none => randLen
  | some l => max MIN_SUFFIX_LENGTH (min l MAX_SUFFIX_LENGTH)

/-- `_generate_code` from `src/utils/code_generator.py`, with the random
choices (prefix and suffix characters) passed in: the produced code is
the prefix followed by the suffix. -/
def generate_code (p : List Char) (suffix : List Char) : List Char :=
  p ++ suffix

/-- `validate_game_code_format` from `src/utils/code_generator.py`:
reject empty codes and codes outside 6 to 10 characters; uppercase the
code and require some known prefix; for the first matching prefix, take
the suffix of the original code past that prefix, require its length in
`[MIN_SUFFIX_LENGTH, MAX_SUFFIX_LENGTH]` and all its uppercased
characters in `SUFFIX_CHARS`. -/
def validate_game_code_format (code : List Char) : Bool :=
  if code.isEmpty then false
  else if code.length < 6 || code.length > 10 then false
  else
    let code_upper := code.map Char.toUpper
    if ! (PREFIXES.any (fun p => p.isPrefixOf code_upper)) then false
    else
      match PREFIXES.find? (fun p => p.isPrefixOf code_upper) with
      | none => false
      | some p =>
        let suffix := code.drop p.length
        if suffix.length < MIN_SUFFIX_LENGTH
            || suffix.length > MAX_SUFFIX_LENGTH then false
        else (suffix.map Char.toUpper).all
          (fun c => SUFFIX_CHARS.contains c)

example : perform_draw ["Bo", "Cid", "Ann"] ["Ann", "Bo", "Cid"]
    = .ok [("Bo", "Cid"), ("Cid", "Ann"), ("Ann", "Bo")] := by decide

example : verify_draw_properties [("Bo", "Cid"), ("Cid", "Ann"), ("Ann", "Bo")]
    = ⟨true, true, true⟩ := by decide

example : validate_draw [("a", "b"), ("b", "a"), ("c", "d"), ("d", "c")]
    ["a", "b", "c", "d"] = none := by decide

example : perform_draw ["anna", "anna", "anna"] ["anna", "anna", "anna"]
    = .error .duplicateParticipant := by decide

example : perform_draw ["bob", "bob"] ["bob", "bob"]
    = .error .insufficientParticipants := by decide

lemma getD_eq_get (l : List String) (i : Nat) (h : i < l.length) :
    l.getD i defaultName = l.get ⟨i, h⟩ := by
  simp [List.getD_eq_getElem?_getD, List.getElem?_eq_getElem h,
    List.get_eq_getElem]

lemma getD_mem (l : List String) (i : Nat) (h : i < l.length) :
    l.getD i defaultName ∈ l := by
  rw [getD_eq_get l i h]; exact List.get_mem l i h

lemma getD_inj (s : List String) (h : s.Nodup) {i j : Nat}
    (hi : i < s.length) (hj : j < s.length)
    (he : s.getD i defaultName = s.getD j defaultName) : i = j := by
  rw [getD_eq_get s i hi, getD_eq_get s j hj] at he
  have := (h.get_inj_iff).mp he
  exact congrArg Fin.val this

lemma map_getD_range (l : List String) :
    (List.range l.length).map (fun i => l.getD i defaultName) = l := by
  apply List.ext_get (by simp)
  intro i h1 h2
  simp only [List.get_map, List.get_range]
  exact getD_eq_get l i h2

lemma cycAssignAux_length (s : List String) :
    (cycAssignAux s).length = s.length := by
  simp [cycAssignAux]

lemma cycAssignAux_map_fst (s : List String) :
    (cycAssignAux s).map Prod.fst = s := by
  rw [cycAssignAux, List.map_map]
  exact map_getD_range s

lemma cycAssignAux_map_snd (s : List String) :
    (cycAssignAux s).map Prod.snd = s.rotate 1 := by
  rw [cycAssignAux, List.map_map]
  apply List.ext_get (by simp [List.length_rotate])
  intro i h1 h2
  have hn : 0 < s.length := by
    simp [List.length_rotate] at h2; omega
  simp only [List.get_map, List.get_range, Function.comp]
  rw [List.get_rotate]
  exact getD_eq_get s _ (Nat.mod_lt _ hn)

lemma find?_range_self (n i : Nat) (hi : i < n) (p : Nat → Bool)
    (hp : ∀ j, j < n → (p j = true ↔ j = i)) :
    (List.range n).find? p = some i := by
  induction n with
  | zero => omega
  | succ m ih =>
    rw [List.range_succ, List.find?_append]
    by_cases him : i < m
    · rw [ih him (fun j hj => hp j (by omega))]
      rfl
    · have hie : i = m := by omega
      subst hie
      have hnone : (List.range i).find? p = none := by
        rw [List.find?_eq_none]
        intro x hx hpx
        rw [List.mem_range] at hx
        have := (hp x (by omega)).mp hpx
        omega
      rw [hnone]
      have hpi := (hp i hi).mpr rfl
      simp [hpi]

lemma create_cyclic_eq_aux (s : List String) (h : s.Nodup) :
    ∀ m, m ≤ s.length →
      (List.range m).foldl
        (fun result i =>
          dictSet result (s.getD i defaultName)
            (s.getD ((i + 1) % s.length) defaultName)) []
      = (List.range m).map
        (fun i => (s.getD i defaultName,
          s.getD ((i + 1) % s.length) defaultName)) := by
  intro m
  induction m with
  | zero => simp
  | succ k ih =>
    intro hm
    rw [List.range_succ, List.foldl_append, List.map_append,
      ih (by omega)]
    simp only [List.foldl_cons, List.foldl_nil, List.map_cons,
      List.map_nil]
    rw [dictSet, if_neg]
    intro hany
    rw [List.any_eq_true] at hany
    obtain ⟨kv, hkv, heq⟩ := hany
    rw [List.mem_map] at hkv
    obtain ⟨j, hj, hkvj⟩ := hkv
    rw [List.mem_range] at hj
    rw [← hkvj] at heq
    simp only [beq_iff_eq] at heq
    have := getD_inj s h (by omega) (by omega) heq
    omega

lemma create_cyclic_eq (s : List String) (h : s.Nodup) :
    create_cyclic_assignment s = cycAssignAux s := by
  rw [create_cyclic_assignment, cycAssignAux]
  exact create_cyclic_eq_aux s h s.length (le_refl _)

lemma dictGet?_cycAssignAux (s : List String) (h : s.Nodup) (i : Nat)
    (hi : i < s.length) :
    dictGet? (cycAssignAux s) (s.getD i defaultName)
      = some (s.getD ((i + 1) % s.length) defaultName) := by
  rw [dictGet?, cycAssignAux, List.find?_map]
  have hfind : (List.range s.length).find?
      ((fun kv => kv.1 == s.getD i defaultName) ∘
        (fun j => (s.getD j defaultName,
          s.getD ((j + 1) % s.length) defaultName))) = some i := by
    apply find?_range_self s.length i hi
    intro j hj
    simp only [Function.comp, beq_iff_eq]
    constructor
    · intro he
      exact getD_inj s h hj hi he
    · intro he
      subst he
      rfl
  rw [hfind]
  rfl

lemma ringVisited_zero (s : List String) (i : Nat) :
    ringVisited s i 0 = [] := by
  simp [ringVisited]

lemma ringVisited_succ (s : List String) (i k : Nat) :
    ringVisited s i (k + 1)
      = s.getD ((i + k) % s.length) defaultName :: ringVisited s i k := by
  rw [ringVisited, ringVisited, List.range_succ, List.map_append,
    List.reverse_append]
  rfl

lemma walk_ring (s : List String) (hnd : s.Nodup) (hn : 0 < s.length)
    (i : Nat) :
    ∀ fuel k, k ≤ s.length → s.length + 1 - k ≤ fuel →
      walk (cycAssignAux s) fuel (ringVisited s i k)
          (s.getD ((i + k) % s.length) defaultName)
        = .done (some (s.getD (i % s.length) defaultName))
            (ringVisited s i s.length) := by
  intro fuel
  induction fuel with
  | zero => intro k hk hf; omega
  | succ f ih =>
    intro k hk hf
    by_cases hkn : k = s.length
    · subst hkn
      have hcur : (i + s.length) % s.length = i % s.length :=
        Nat.add_mod_right i s.length
      rw [hcur]
      have hmem : s.getD (i % s.length) defaultName
          ∈ ringVisited s i s.length := by
        rw [ringVisited, List.mem_reverse, List.mem_map]
        exact ⟨0, by simp [List.mem_range, hn], by rw [Nat.add_zero]⟩
      simp only [walk, if_pos hmem]
    · have hklt : k < s.length := lt_of_le_of_ne hk hkn
      have hnotmem : s.getD ((i + k) % s.length) defaultName
          ∉ ringVisited s i k := by
        rw [ringVisited, List.mem_reverse, List.mem_map]
        rintro ⟨m, hm, he⟩
        rw [List.mem_range] at hm
        have hmk := getD_inj s hnd (Nat.mod_lt _ hn) (Nat.mod_lt _ hn) he
        have hmod : m ≡ k [MOD s.length] :=
          Nat.ModEq.add_left_cancel' i hmk
        rw [Nat.ModEq, Nat.mod_eq_of_lt (by omega),
          Nat.mod_eq_of_lt hklt] at hmod
        omega
      have hlook := dictGet?_cycAssignAux s hnd ((i + k) % s.length)
        (Nat.mod_lt _ hn)
      have hnext : ((i + k) % s.length + 1) % s.length
          = (i + (k + 1)) % s.length := by
        rw [Nat.mod_add_mod, ← Nat.add_assoc]
      simp only [walk, if_neg hnotmem, hlook, hnext]
      rw [← ringVisited_succ]
      exact ih (k + 1) (by omega) (by omega)

lemma walk_ring_start (s : List String) (hnd : s.Nodup)
    (hn : 0 < s.length) (i : Nat) (hi : i < s.length) (fuel : Nat)
    (hfuel : s.length + 1 ≤ fuel) :
    walk (cycAssignAux s) fuel [] (s.getD i defaultName)
      = .done (some (s.getD i defaultName))
          (ringVisited s i s.length) := by
  have h := walk_ring s hnd hn i fuel 0 (by omega) (by omega)
  rw [ringVisited_zero, Nat.add_zero, Nat.mod_eq_of_lt hi] at h
  exact h

lemma ringVisited_full_eq_rotate (s : List String) (i : Nat) :
    ringVisited s i s.length = (s.rotate i).reverse := by
  rw [ringVisited]
  congr 1
  by_cases hn : s.length = 0
  · rw [List.eq_nil_of_length_eq_zero hn]
    simp
  · apply List.ext_get (by simp [List.length_rotate])
    intro m h1 h2
    have hn' : 0 < s.length := by omega
    simp only [List.get_map, List.get_range]
    rw [List.get_rotate]
    rw [getD_eq_get s _ (Nat.mod_lt _ hn')]
    congr 1
    rw [Nat.add_comm]

lemma ringVisited_full_perm (s : List String) (i : Nat) :
    (ringVisited s i s.length).Perm s := by
  rw [ringVisited_full_eq_rotate]
  exact (List.reverse_perm _).trans (List.rotate_perm s i)

lemma validate_draw_none_iff (dr : Assignment) (ps : List String) :
    validate_draw dr ps = none ↔
      dr.length = ps.length ∧ (∀ kv ∈ dr, kv.1 ≠ kv.2) ∧
      (dr.map Prod.fst).toFinset = ps.toFinset ∧
      (dr.map Prod.snd).toFinset = ps.toFinset := by
  rw [validate_draw]
  split_ifs with h1 h2 h3 h4
  · exact iff_of_false not_false (fun hc => h1 hc.1)
  · refine iff_of_false not_false (fun hc => ?_)
    rw [List.any_eq_true] at h2
    obtain ⟨kv, hkv, he⟩ := h2
    exact hc.2.1 kv hkv (by simpa using he)
  · refine iff_of_true rfl ⟨not_not.mp h1, ?_, h3, h4⟩
    intro kv hkv he
    exact h2 (List.any_eq_true.mpr ⟨kv, hkv, by simpa using he⟩)
  · exact iff_of_false not_false (fun hc => h4 hc.2.2.2)
  · exact iff_of_false not_false (fun hc => h3 hc.2.2.1)

lemma validate_draw_eq_none_or (dr : Assignment) (ps : List String) :
    validate_draw dr ps = none
      ∨ validate_draw dr ps = some .integrityError := by
  rw [validate_draw]
  split_ifs <;> simp

lemma cycAssign_validate (ps sh : List String) (hperm : sh.Perm ps)
    (hnd : ps.Nodup) (hN : 3 ≤ ps.length) :
    validate_draw (cycAssignAux sh) ps = none := by
  have hndsh : sh.Nodup := hperm.nodup_iff.mpr hnd
  have hlen : sh.length = ps.length := hperm.length_eq
  have hrot : (sh.rotate 1).Perm ps :=
    (List.rotate_perm sh 1).trans hperm
  rw [validate_draw_none_iff]
  refine ⟨by rw [cycAssignAux_length]; omega, ?_, ?_, ?_⟩
  · intro kv hkv
    rw [cycAssignAux, List.mem_map] at hkv
    obtain ⟨i, hi, hkvi⟩ := hkv
    rw [List.mem_range] at hi
    rw [← hkvi]
    intro he
    have hmod : i = (i + 1) % sh.length :=
      getD_inj sh hndsh (by omega) (Nat.mod_lt _ (by omega)) he
    by_cases hlt : i + 1 < sh.length
    · rw [Nat.mod_eq_of_lt hlt] at hmod; omega
    · have hieq : i + 1 = sh.length := by omega
      rw [hieq, Nat.mod_self] at hmod
      omega
  · rw [cycAssignAux_map_fst]
    exact List.toFinset_eq_of_perm _ _ hperm
  · rw [cycAssignAux_map_snd]
    exact List.toFinset_eq_of_perm _ _ hrot

lemma perform_draw_ok (ps sh : List String) (hperm : sh.Perm ps)
    (hnd : ps.Nodup) (hN : 3 ≤ ps.length) :
    perform_draw sh ps = .ok (cycAssignAux sh) := by
  have hndsh : sh.Nodup := hperm.nodup_iff.mpr hnd
  have h1 : ps.isEmpty = false := by
    cases ps with
    | nil => simp at hN
    | cons a t => rfl
  have h2 : ¬ ps.length < MIN_PARTICIPANTS := by
    rw [MIN_PARTICIPANTS]; omega
  have h3 : ¬ ps.length ≠ ps.dedup.length := by
    rw [List.dedup_eq_self.mpr hnd]
    omega
  have h4 := cycAssign_validate ps sh hperm hnd hN
  rw [perform_draw, if_neg (by simp [h1]), if_neg h2, if_neg h3]
  simp only [create_cyclic_eq sh hndsh, h4]

lemma walk_no_fuelOut_aux (d : Assignment) (A : List String)
    (hvals : ∀ v ∈ d.map Prod.snd, v ∈ A) :
    ∀ fuel visited current, visited.Nodup → (∀ v ∈ visited, v ∈ A) →
      current ∈ A → A.length + 1 ≤ fuel + visited.length →
      walk d fuel visited current ≠ .fuelOut := by
  intro fuel
  induction fuel with
  | zero =>
    intro visited current hnd hsub hcur hlen
    exfalso
    have h1 : visited.toFinset.card = visited.length :=
      List.toFinset_card_of_nodup hnd
    have h2 : visited.toFinset ⊆ A.toFinset := by
      intro a ha
      rw [List.mem_toFinset] at ha ⊢
      exact hsub a ha
    have h3 := Finset.card_le_card h2
    have h4 : A.toFinset.card ≤ A.length := List.toFinset_card_le A
    omega
  | succ f ih =>
    intro visited current hnd hsub hcur hlen
    by_cases hmem : current ∈ visited
    · simp [walk, hmem]
    · cases hlook : dictGet? d current with
      | none => simp [walk, hmem, hlook]
      | some nxt =>
        have hstep : walk d (f + 1) visited current
            = walk d f (current :: visited) nxt := by
          simp [walk, hmem, hlook]
        rw [hstep]
        apply ih (current :: visited) nxt
        · exact List.nodup_cons.mpr ⟨hmem, hnd⟩
        · intro v hv
          rcases List.mem_cons.mp hv with h | h
          · rw [h]; exact hcur
          · exact hsub v h
        · apply hvals
          rw [dictGet?] at hlook
          cases hfind : d.find? (fun kv => kv.1 == current) with
          | none => rw [hfind] at hlook; cases hlook
          | some kv =>
            rw [hfind] at hlook
            rw [Option.map] at hlook
            have hlook2 : kv.2 = nxt := Option.some.inj hlook
            have hkvm := List.mem_of_find?_eq_some hfind
            rw [← hlook2]
            exact List.mem_map.mpr ⟨kv, hkvm, rfl⟩
        · simp only [List.length_cons]
          omega

lemma walk_total (d : Assignment) (start : String) :
    walk d (d.length + 2) [] start ≠ .fuelOut := by
  apply walk_no_fuelOut_aux d (start :: d.map Prod.snd)
  · intro v hv
    exact List.mem_cons_of_mem _ hv
  · exact List.nodup_nil
  · intro v hv
    cases hv
  · exact List.mem_cons_self _ _
  · simp only [List.length_cons, List.length_map, List.length_nil]
    omega

lemma cycAssignAux_cons (sh : List String) (hn : 0 < sh.length) :
    ∃ tl, cycAssignAux sh
      = (sh.getD 0 defaultName, sh.getD (1 % sh.length) defaultName)
        :: tl := by
  cases hcyc : cycAssignAux sh with
  | nil =>
    exfalso
    have hl := cycAssignAux_length sh
    rw [hcyc] at hl
    simp at hl
    omega
  | cons hd tl =>
    refine ⟨tl, ?_⟩
    have h0 : (cycAssignAux sh)[0]? = some hd := by rw [hcyc]; simp
    rw [cycAssignAux, List.getElem?_map] at h0
    have hr : (List.range sh.length)[0]? = some 0 := by
      rw [List.getElem?_eq_getElem (by simpa using hn)]
      simp
    rw [hr] at h0
    rw [Option.map] at h0
    have hhd := Option.some.inj h0
    rw [← hhd]

lemma verify_cycAssign (ps sh : List String) (hperm : sh.Perm ps)
    (hnd : ps.Nodup) (hN : 3 ≤ ps.length) :
    verify_draw_properties (cycAssignAux sh) = ⟨true, true, true⟩ := by
  have hndsh : sh.Nodup := hperm.nodup_iff.mpr hnd
  have hlen : sh.length = ps.length := hperm.length_eq
  have hn : 0 < sh.length := by omega
  obtain ⟨hval_len, hself, hfst, hsnd⟩ :=
    (validate_draw_none_iff _ _).mp (cycAssign_validate ps sh hperm hnd hN)
  obtain ⟨tl, htl⟩ := cycAssignAux_cons sh hn
  have hwalk := walk_ring_start sh hndsh hn 0 hn
    ((cycAssignAux sh).length + 2) (by rw [cycAssignAux_length]; omega)
  rw [verify_draw_properties.eq_def]
  rw [DrawChecks.mk.injEq]
  refine ⟨?_, ?_, ?_⟩
  · rw [Bool.not_eq_true', List.any_eq_false]
    intro kv hkv
    simpa using hself kv hkv
  · rw [decide_eq_true_eq, hfst, hsnd]
  · split
    · rfl
    · rename_i k v tail heq
      have hk : k = sh.getD 0 defaultName := by
        rw [htl] at heq
        exact (Prod.mk.injEq _ _ _ _ ▸ (List.cons.inj heq).1).1.symm
      rw [hk, hwalk]
      have hvl : (ringVisited sh 0 sh.length).length
          = (cycAssignAux sh).length := by
        rw [(ringVisited_full_perm sh 0).length_eq, cycAssignAux_length]
      simp [hvl]

/-- Claim C1: for every list of at least three distinct names,
`perform_draw` (for any shuffle outcome, i.e. any permutation of the
input) succeeds with a mapping of exactly N giver-receiver pairs whose
giver set and receiver set both equal the input set, with no giver
mapped to itself, and such that following the giver-to-receiver chain
from any participant visits every participant exactly once before
returning to the start (a single N-cycle). -/
theorem perform_draw_single_cycle (participants shuffled : List String)
    (hperm : shuffled.Perm participants) (hnd : participants.Nodup)
    (hN : 3 ≤ participants.length) :
    ∃ d, perform_draw shuffled participants = .ok d ∧
      d.length = participants.length ∧
      (d.map Prod.fst).toFinset = participants.toFinset ∧
      (d.map Prod.snd).toFinset = participants.toFinset ∧
      (∀ kv ∈ d, kv.1 ≠ kv.2) ∧
      (∀ x ∈ participants, ∃ visited,
        walk d (d.length + 2) [] x = .done (some x) visited ∧
        visited.Nodup ∧ visited.length = participants.length ∧
        visited.toFinset = participants.toFinset) := by
  have hndsh : shuffled.Nodup := hperm.nodup_iff.mpr hnd
  have hlen : shuffled.length = participants.length := hperm.length_eq
  obtain ⟨hvlen, hself, hfst, hsnd⟩ :=
    (validate_draw_none_iff _ _).mp
      (cycAssign_validate participants shuffled hperm hnd hN)
  refine ⟨cycAssignAux shuffled,
    perform_draw_ok participants shuffled hperm hnd hN,
    hvlen, hfst, hsnd, hself, ?_⟩
  intro x hx
  have hxsh : x ∈ shuffled := hperm.mem_iff.mpr hx
  obtain ⟨⟨i, hi⟩, hgi⟩ := List.mem_iff_get.mp hxsh
  have hn0 : 0 < shuffled.length := by omega
  have hxg : shuffled.getD i defaultName = x := by
    rw [getD_eq_get _ _ hi, hgi]
  have hwalk := walk_ring_start shuffled hndsh hn0 i hi
    ((cycAssignAux shuffled).length + 2)
    (by rw [cycAssignAux_length]; omega)
  rw [hxg] at hwalk
  refine ⟨ringVisited shuffled i shuffled.length, hwalk, ?_, ?_, ?_⟩
  · exact ((ringVisited_full_perm shuffled i).nodup_iff).mpr hndsh
  · rw [(ringVisited_full_perm shuffled i).length_eq]
    omega
  · exact List.toFinset_eq_of_perm _ _
      ((ringVisited_full_perm shuffled i).trans hperm)

/-- Witness for C1 at the concrete scenario of the specification:
participants Ann, Bo, Cid with shuffle outcome Bo, Cid, Ann. -/
theorem perform_draw_single_cycle_witness :
    ∃ d, perform_draw ["Bo", "Cid", "Ann"] ["Ann", "Bo", "Cid"] = .ok d ∧
      d.length = (["Ann", "Bo", "Cid"] : List String).length ∧
      (d.map Prod.fst).toFinset
        = (["Ann", "Bo", "Cid"] : List String).toFinset ∧
      (d.map Prod.snd).toFinset
        = (["Ann", "Bo", "Cid"] : List String).toFinset ∧
      (∀ kv ∈ d, kv.1 ≠ kv.2) ∧
      (∀ x ∈ (["Ann", "Bo", "Cid"] : List String), ∃ visited,
        walk d (d.length + 2) [] x = .done (some x) visited ∧
        visited.Nodup ∧
        visited.length = (["Ann", "Bo", "Cid"] : List String).length ∧
        visited.toFinset
          = (["Ann", "Bo", "Cid"] : List String).toFinset) :=
  perform_draw_single_cycle ["Ann", "Bo", "Cid"] ["Bo", "Cid", "Ann"]
    (by decide) (by decide) (by decide)

/-- Claim C9: `verify_draw_properties` reports all three checks true on
any mapping returned by a successful `perform_draw` run (shuffle a
permutation of a duplicate-free input of at least three names); on any
mapping containing a self-pair it reports `no_self_assignment` false;
and its only loop always terminates within the modelled fuel bound on
every input (the function is a pure diagnostic: in this embedding it
can neither mutate its argument nor raise). -/
theorem verify_draw_properties_spec :
    (∀ participants shuffled d, shuffled.Perm participants →
        participants.Nodup → 3 ≤ participants.length →
        perform_draw shuffled participants = .ok d →
        verify_draw_properties d = ⟨true, true, true⟩) ∧
    (∀ d kv, kv ∈ d → kv.1 = kv.2 →
        (verify_draw_properties d).no_self_assignment = false) ∧
    (∀ d start, walk d (d.length + 2) [] start ≠ .fuelOut) := by
  refine ⟨?_, ?_, fun d start => walk_total d start⟩
  · intro ps sh d hperm hnd hN hok
    rw [perform_draw_ok ps sh hperm hnd hN] at hok
    injection hok with hd
    rw [← hd]
    exact verify_cycAssign ps sh hperm hnd hN
  · intro d kv hkv he
    simp only [verify_draw_properties]
    rw [Bool.not_eq_false']
    exact List.any_eq_true.mpr ⟨kv, hkv, by simp [he]⟩

/-- Witness for C9: the specification scenario draw reports all checks
true, and a mapping with the self-pair (a, a) reports
`no_self_assignment` false. -/
theorem verify_draw_properties_spec_witness :
    verify_draw_properties [("Bo", "Cid"), ("Cid", "Ann"), ("Ann", "Bo")]
      = ⟨true, true, true⟩ ∧
    (verify_draw_properties [("a", "a"), ("b", "c")]).no_self_assignment
      = false :=
  ⟨verify_draw_properties_spec.1 ["Ann", "Bo", "Cid"] ["Bo", "Cid", "Ann"]
      [("Bo", "Cid"), ("Cid", "Ann"), ("Ann", "Bo")]
      (by decide) (by decide) (by decide) (by decide),
   verify_draw_properties_spec.2.1 [("a", "a"), ("b", "c")] ("a", "a")
      (by decide) rfl⟩

/-- Counterexample to claim C2 as stated: the mapping made of two
disjoint 2-cycles over the four participants a, b, c, d is a candidate
violating the single-cycle property, yet `_validate_draw` accepts it
(returns no error), because the validator checks only the pair count,
self-pairs and the giver and receiver sets; the chain walk from a
visits only a and b before returning. -/
theorem validate_draw_accepts_two_cycles :
    validate_draw [("a", "b"), ("b", "a"), ("c", "d"), ("d", "c")]
      ["a", "b", "c", "d"] = none ∧
    walk [("a", "b"), ("b", "a"), ("c", "d"), ("d", "c")] 6 [] ("a")
      = .done (some ("a")) ["b", "a"] := by decide

/-- Claim C2 (amended): the post-generation validation run by
`perform_draw` (`_validate_draw`) rejects, with the integrity error,
exactly the candidate mappings that violate the pair count, the
no-self-assignment property, or the equality of the giver set or the
receiver set with the original participant set; a chain that fails to
visit every node (for example two disjoint smaller cycles) is not
among its checks and is not rejected by it (`cmd_draw` checks the cycle
property separately, through `verify_draw_properties`). -/
theorem validate_draw_rejections (dr : Assignment) (ps : List String) :
    (validate_draw dr ps = none ↔
      dr.length = ps.length ∧ (∀ kv ∈ dr, kv.1 ≠ kv.2) ∧
      (dr.map Prod.fst).toFinset = ps.toFinset ∧
      (dr.map Prod.snd).toFinset = ps.toFinset) ∧
    (validate_draw dr ps = none
      ∨ validate_draw dr ps = some .integrityError) :=
  ⟨validate_draw_none_iff dr ps, validate_draw_eq_none_or dr ps⟩

/-- Counterexample to claim C3 as stated: the input of three copies of
one name has fewer than three distinct names, yet fails with the
duplicate error, and the input of two copies contains a repeated name,
yet fails with the insufficient-participants error: `perform_draw`
checks the raw list length before looking for duplicates. -/
theorem perform_draw_error_order :
    perform_draw ["anna", "anna", "anna"] ["anna", "anna", "anna"]
      = .error .duplicateParticipant ∧
    perform_draw ["bob", "bob"] ["bob", "bob"]
      = .error .insufficientParticipants := by decide

/-- Claim C3 (amended): an input list with fewer than three elements
fails with the insufficient-participants error, and an input list with
at least three elements that contains a repeated name fails with the
duplicate error. -/
theorem perform_draw_error_cases (shuffled participants : List String) :
    (participants.length < 3 →
      perform_draw shuffled participants
        = .error .insufficientParticipants) ∧
    (3 ≤ participants.length → ¬ participants.Nodup →
      perform_draw shuffled participants
        = .error .duplicateParticipant) := by
  constructor
  · intro h
    rw [perform_draw]
    split_ifs with h1 h2 h3
    · rfl
    · rfl
    · exfalso
      rw [MIN_PARTICIPANTS] at h2
      omega
    · exfalso
      rw [MIN_PARTICIPANTS] at h2
      omega
  · intro h3 hdup
    have hsub := List.dedup_sublist participants
    have hle := hsub.length_le
    have hlt : participants.dedup.length < participants.length := by
      rcases eq_or_lt_of_le hle with he | hl
      · exfalso
        apply hdup
        have hdd := hsub.eq_of_length he
        rw [← hdd]
        exact participants.nodup_dedup
      · exact hl
    have hne : participants.isEmpty = false := by
      cases participants with
      | nil => simp at h3
      | cons a t => rfl
    rw [perform_draw, if_neg (by simp [hne]),
      if_neg (by rw [MIN_PARTICIPANTS]; omega), if_pos (by omega)]

/-- Witness for the amended C3: a two-element duplicate input fails as
insufficient, a three-element input with a repeat fails as duplicate. -/
theorem perform_draw_error_cases_witness :
    perform_draw ["x", "x"] ["x", "x"]
      = .error .insufficientParticipants ∧
    perform_draw ["a", "b", "b"] ["a", "b", "b"]
      = .error .duplicateParticipant :=
  ⟨(perform_draw_error_cases ["x", "x"] ["x", "x"]).1 (by decide),
   (perform_draw_error_cases ["a", "b", "b"] ["a", "b", "b"]).2
      (by decide) (by decide)⟩

lemma findGame_mem {st : Store} {code : String} {g : Game}
    (h : findGame st code = some g) : g ∈ st ∧ g.game_code = code := by
  rw [findGame] at h
  refine ⟨List.mem_of_find?_eq_some h, ?_⟩
  have := List.find?_some h
  simpa using this

lemma findGame_unique {st : Store} (hwf : StoreWF st) {code : String}
    {g g' : Game} (h : findGame st code = some g) (hm : g' ∈ st)
    (hc : g'.game_code = code) : g' = g := by
  obtain ⟨hgm, hgc⟩ := findGame_mem h
  exact List.inj_on_of_nodup_map hwf hm hgm (by rw [hc, hgc])

lemma mem_updateGame {st : Store} {code : String} {f : Game → Game}
    {g' : Game} (h : g' ∈ updateGame st code f) :
    ∃ g ∈ st, g' = if g.game_code == code then f g else g := by
  rw [updateGame, List.mem_map] at h
  obtain ⟨g, hg, he⟩ := h
  exact ⟨g, hg, he.symm⟩

lemma updateGame_map_code (st : Store) (code : String) (f : Game → Game)
    (hf : ∀ g, (f g).game_code = g.game_code) :
    (updateGame st code f).map Game.game_code = st.map Game.game_code := by
  rw [updateGame, List.map_map]
  apply List.map_congr_left
  intro g hg
  simp only [Function.comp]
  split_ifs with h
  · exact hf g
  · rfl

lemma findGame_updateGame (st : Store) (code : String) (f : Game → Game)
    (hf : ∀ g, (f g).game_code = g.game_code) :
    findGame (updateGame st code f) code = (findGame st code).map f := by
  rw [findGame, updateGame, List.find?_map]
  have hp : ((fun g : Game => g.game_code == code) ∘
      (fun g => if g.game_code == code then f g else g))
      = (fun g : Game => g.game_code == code) := by
    funext g
    simp only [Function.comp]
    split_ifs with h
    · rw [hf g]
    · rfl
  rw [hp, findGame]
  cases hfind : st.find? (fun g => g.game_code == code) with
  | none => rfl
  | some g =>
    have hg := List.find?_some hfind
    rw [Option.map, Option.map]
    rw [if_pos hg]

lemma deleteGame_preserves {st : Store} {code : String} :
    StoreWF st → StoreWF (deleteGame st code) := by
  intro hwf
  rw [StoreWF, deleteGame]
  exact ((List.filter_sublist st).map Game.game_code).nodup hwf

lemma mem_deleteGame {st : Store} {code : String} {g : Game}
    (h : g ∈ deleteGame st code) : g ∈ st :=
  List.mem_of_mem_filter h

lemma cmd_lock_ok {st : Store} {code : String} {user : Int} {st' : Store}
    (h : cmd_lock st code user = .ok st') :
    ∃ game, findGame st code = some game ∧
      game.creator_chat_id = user ∧ game.is_locked = false ∧
      MIN_PARTICIPANTS ≤ game.participants.length ∧
      st' = updateGame st code (fun g => { g with is_locked := true }) := by
  rw [cmd_lock] at h
  cases hfind : findGame st code with
  | none => rw [hfind] at h; dsimp only at h; cases h
  | some game =>
    rw [hfind] at h
    dsimp only at h
    split_ifs at h with h1 h2 h3
    injection h with hd
    exact ⟨game, rfl, not_not.mp h1, Bool.not_eq_true _ ▸ h2,
      by omega, hd.symm⟩

lemma cmd_unlock_ok {st : Store} {code : String} {user : Int} {st' : Store}
    (h : cmd_unlock st code user = .ok st') :
    ∃ game, findGame st code = some game ∧
      game.creator_chat_id = user ∧ game.is_drawn = false ∧
      game.is_locked = true ∧
      st' = updateGame st code (fun g => { g with is_locked := false }) := by
  rw [cmd_unlock] at h
  cases hfind : findGame st code with
  | none => rw [hfind] at h; dsimp only at h; cases h
  | some game =>
    rw [hfind] at h
    dsimp only at h
    split_ifs at h with h1 h2 h3
    injection h with hd
    refine ⟨game, rfl, not_not.mp h1, Bool.not_eq_true _ ▸ h2, ?_,
      hd.symm⟩
    simpa using h3

lemma cmd_join_ok {st : Store} {code name : String} {v : Bool} {st' : Store}
    (h : cmd_join st code name v = .ok st') :
    ∃ game, findGame st code = some game ∧ game.is_locked = false ∧
      name ∉ game.participants ∧
      st' = updateGame st code
        (fun g => { g with participants := g.participants ++ [name] }) := by
  rw [cmd_join] at h
  split_ifs at h with hv
  cases hfind : findGame st code with
  | none => rw [hfind] at h; dsimp only at h; cases h
  | some game =>
    rw [hfind] at h
    dsimp only at h
    split_ifs at h with h1 h2
    injection h with hd
    exact ⟨game, rfl, Bool.not_eq_true _ ▸ h1, h2, hd.symm⟩

lemma cmd_draw_ok {st : Store} {code : String} {user : Int}
    {sh : List String} {st' : Store}
    (h : cmd_draw st code user sh = .ok st') :
    ∃ game dr, findGame st code = some game ∧
      game.creator_chat_id = user ∧ game.is_locked = true ∧
      game.is_drawn = false ∧
      perform_draw sh game.participants = .ok dr ∧
      st' = updateGame st code
        (fun g => { g with assignments := dr, is_drawn := true }) := by
  rw [cmd_draw] at h
  cases hfind : findGame st code with
  | none => rw [hfind] at h; dsimp only at h; cases h
  | some game =>
    rw [hfind] at h
    dsimp only at h
    split_ifs at h with h1 h2 h3
    revert h
    cases hdr : perform_draw sh game.participants with
    | error e => intro h; cases h
    | ok dr =>
      intro h
      dsimp only at h
      split_ifs at h with h4
      injection h with hd
      exact ⟨game, dr, rfl, not_not.mp h1, by simpa using h2,
        Bool.not_eq_true _ ▸ h3, hdr, hd.symm⟩

lemma cmd_redraw_ok {st : Store} {code : String} {user : Int}
    {sh : List String} {st' : Store}
    (h : cmd_redraw st code user sh = .ok st') :
    ∃ game dr, findGame st code = some game ∧
      game.creator_chat_id = user ∧ game.is_locked = true ∧
      perform_draw sh game.participants = .ok dr ∧
      st' = updateGame st code
        (fun g => { g with assignments := dr, is_drawn := true }) := by
  rw [cmd_redraw] at h
  cases hfind : findGame st code with
  | none => rw [hfind] at h; dsimp only at h; cases h
  | some game =>
    rw [hfind] at h
    dsimp only at h
    split_ifs at h with h1 h2
    revert h
    cases hdr : perform_draw sh game.participants with
    | error e => intro h; cases h
    | ok dr =>
      intro h
      dsimp only at h
      injection h with hd
      exact ⟨game, dr, rfl, not_not.mp h1, by simpa using h2, hdr,
        hd.symm⟩

lemma cmd_new_ok {st : Store} {code : String} {user : Int} {now : Int}
    {st' : Store} (h : cmd_new st code user now = .ok st') :
    findGame st code = none ∧ st' = st ++ [mkGame code user now] := by
  rw [cmd_new] at h
  split_ifs at h with h1
  injection h with hd
  refine ⟨?_, hd.symm⟩
  exact Option.not_isSome_iff_eq_none.mp (by simpa using h1)

lemma cmd_purge_confirm_ok {st : Store} {code : String} {user : Int}
    {st' : Store} (h : cmd_purge_confirm st code user = .ok st') :
    ∃ game, findGame st code = some game ∧
      game.creator_chat_id = user ∧ st' = deleteGame st code := by
  rw [cmd_purge_confirm] at h
  cases hfind : findGame st code with
  | none => rw [hfind] at h; dsimp only at h; cases h
  | some game =>
    rw [hfind] at h
    dsimp only at h
    split_ifs at h with h1
    injection h with hd
    exact ⟨game, rfl, not_not.mp h1, hd.symm⟩

lemma cmd_lock_perm {st : Store} {code : String} {user : Int} {g : Game}
    (hf : findGame st code = some g) (hne : g.creator_chat_id ≠ user) :
    cmd_lock st code user = .error .permissionDenied := by
  rw [cmd_lock, hf]
  dsimp only
  rw [if_pos hne]

lemma cmd_unlock_perm {st : Store} {code : String} {user : Int} {g : Game}
    (hf : findGame st code = some g) (hne : g.creator_chat_id ≠ user) :
    cmd_unlock st code user = .error .permissionDenied := by
  rw [cmd_unlock, hf]
  dsimp only
  rw [if_pos hne]

lemma cmd_draw_perm {st : Store} {code : String} {user : Int}
    {sh : List String} {g : Game} (hf : findGame st code = some g)
    (hne : g.creator_chat_id ≠ user) :
    cmd_draw st code user sh = .error .permissionDenied := by
  rw [cmd_draw, hf]
  dsimp only
  rw [if_pos hne]

lemma cmd_redraw_perm {st : Store} {code : String} {user : Int}
    {sh : List String} {g : Game} (hf : findGame st code = some g)
    (hne : g.creator_chat_id ≠ user) :
    cmd_redraw st code user sh = .error .permissionDenied := by
  rw [cmd_redraw, hf]
  dsimp only
  rw [if_pos hne]

lemma cmd_purge_confirm_perm {st : Store} {code : String} {user : Int}
    {g : Game} (hf : findGame st code = some g)
    (hne : g.creator_chat_id ≠ user) :
    cmd_purge_confirm st code user = .error .permissionDenied := by
  rw [cmd_purge_confirm, hf]
  dsimp only
  rw [if_pos hne]

lemma cmd_unlock_after_draw {st : Store} {code : String} {user : Int}
    {g : Game} (hf : findGame st code = some g)
    (hcr : g.creator_chat_id = user) (hdrawn : g.is_drawn = true) :
    cmd_unlock st code user = .error .cannotUnlockAfterDraw := by
  rw [cmd_unlock, hf]
  dsimp only
  rw [if_neg (by rw [hcr]; exact fun hne => hne rfl), if_pos hdrawn]

lemma cmd_draw_already_drawn {st : Store} {code : String} {user : Int}
    {sh : List String} {g : Game} (hf : findGame st code = some g)
    (hcr : g.creator_chat_id = user) (hlk : g.is_locked = true)
    (hdrawn : g.is_drawn = true) :
    cmd_draw st code user sh = .error .alreadyDrawnError := by
  rw [cmd_draw, hf]
  dsimp only
  rw [if_neg (by rw [hcr]; exact fun hne => hne rfl),
    if_neg (by rw [hlk]; simp), if_pos hdrawn]

lemma cmd_draw_not_locked {st : Store} {code : String} {user : Int}
    {sh : List String} {g : Game} (hf : findGame st code = some g)
    (hcr : g.creator_chat_id = user) (hlk : g.is_locked = false) :
    cmd_draw st code user sh = .error .notLockedError := by
  rw [cmd_draw, hf]
  dsimp only
  rw [if_neg (by rw [hcr]; exact fun hne => hne rfl),
    if_pos (by rw [hlk]; rfl)]

lemma cmd_lock_insufficient {st : Store} {code : String} {user : Int}
    {g : Game} (hf : findGame st code = some g)
    (hcr : g.creator_chat_id = user) (hlk : g.is_locked = false)
    (hcnt : g.participants.length < MIN_PARTICIPANTS) :
    cmd_lock st code user = .error .insufficientParticipants := by
  rw [cmd_lock, hf]
  dsimp only
  rw [if_neg (by rw [hcr]; exact fun hne => hne rfl),
    if_neg (by rw [hlk]; simp), if_pos hcnt]

lemma cmd_lock_success {st : Store} {code : String} {user : Int}
    {g : Game} (hf : findGame st code = some g)
    (hcr : g.creator_chat_id = user) (hlk : g.is_locked = false)
    (hcnt : MIN_PARTICIPANTS ≤ g.participants.length) :
    cmd_lock st code user
      = .ok (updateGame st code (fun x => { x with is_locked := true })) := by
  rw [cmd_lock, hf]
  dsimp only
  rw [if_neg (by rw [hcr]; exact fun hne => hne rfl),
    if_neg (by rw [hlk]; simp), if_neg (by omega)]

lemma cmd_join_locked {st : Store} {code name : String} {g : Game}
    (hf : findGame st code = some g) (hlk : g.is_locked = true) :
    cmd_join st code name true = .error .gameLockedError := by
  rw [cmd_join, if_neg (by simp), hf]
  dsimp only
  rw [if_pos hlk]

lemma DIL_updateGame {st : Store} {code : String} {f : Game → Game}
    (hdil : DrawnImpliesLocked st)
    (hflag : ∀ g, g ∈ st → (g.game_code == code) = true →
      (f g).is_drawn → (f g).is_locked) :
    DrawnImpliesLocked (updateGame st code f) := by
  intro g' hg' hd
  obtain ⟨g, hg, he⟩ := mem_updateGame hg'
  by_cases hc : (g.game_code == code) = true
  · rw [if_pos hc] at he
    rw [he] at hd ⊢
    exact hflag g hg hc hd
  · rw [if_neg hc] at he
    rw [he] at hd ⊢
    exact hdil g hg hd

lemma foldl_purge_preserves (P : Store → Prop)
    (hP : ∀ s code, P s → P (deleteGame s code)) (F : String → Bool) :
    ∀ (l : List Game) (acc : Nat × Store), P acc.2 →
      P ((l.foldl (fun acc g => if F g.game_code then acc
        else (acc.1 + 1, deleteGame acc.2 g.game_code)) acc).2) := by
  intro l
  induction l with
  | nil => intro acc h; exact h
  | cons g t ih =>
    intro acc h
    rw [List.foldl_cons]
    by_cases hF : F g.game_code
    · rw [if_pos hF]
      exact ih acc h
    · rw [if_neg hF]
      exact ih _ (hP acc.2 g.game_code h)

lemma StoreWF_updateGame {st : Store} {code : String} {f : Game → Game}
    (hf : ∀ g, (f g).game_code = g.game_code) (hwf : StoreWF st) :
    StoreWF (updateGame st code f) := by
  rw [StoreWF, updateGame_map_code st code f hf]
  exact hwf

lemma mkGame_flags (code : String) (user : Int) (now : Int) :
    (mkGame code user now).is_locked = false ∧
    (mkGame code user now).is_drawn = false ∧
    (mkGame code user now).participants = [] ∧
    (mkGame code user now).assignments = [] :=
  ⟨rfl, rfl, rfl, rfl⟩

lemma applyOp_preserves (st : Store) (op : Op)
    (h : StoreWF st ∧ DrawnImpliesLocked st) :
    StoreWF (applyOp st op) ∧ DrawnImpliesLocked (applyOp st op) := by
  obtain ⟨hwf, hdil⟩ := h
  cases op with
  | newGame c u n =>
    rw [applyOp]
    cases hc : cmd_new st c u n with
    | error e => exact ⟨hwf, hdil⟩
    | ok st' =>
      obtain ⟨hnone, hst'⟩ := cmd_new_ok hc
      subst hst'
      dsimp only
      constructor
      · rw [StoreWF, List.map_append, List.nodup_append]
        refine ⟨hwf, by simp [mkGame], ?_⟩
        intro x hx hmem
        have hxc : x = c := by
          simpa [mkGame] using hmem
        subst hxc
        rw [List.mem_map] at hx
        obtain ⟨g0, hg0, hg0c⟩ := hx
        rw [findGame, List.find?_eq_none] at hnone
        exact hnone g0 hg0 (by simp [hg0c])
      · intro g hg hd
        rcases List.mem_append.mp hg with hmem | hmem
        · exact hdil g hmem hd
        · have hge : g = mkGame c u n := List.mem_singleton.mp hmem
          subst hge
          cases hd
  | join c nm v =>
    rw [applyOp]
    cases hc : cmd_join st c nm v with
    | error e => exact ⟨hwf, hdil⟩
    | ok st' =>
      obtain ⟨game, hfind, hlk, hnm, hst'⟩ := cmd_join_ok hc
      subst hst'
      dsimp only
      constructor
      · exact StoreWF_updateGame (fun g => rfl) hwf
      · exact DIL_updateGame hdil (fun g hg hgc hd => hdil g hg hd)
  | lock c u =>
    rw [applyOp]
    cases hc : cmd_lock st c u with
    | error e => exact ⟨hwf, hdil⟩
    | ok st' =>
      obtain ⟨game, hfind, hcr, hlk, hcnt, hst'⟩ := cmd_lock_ok hc
      subst hst'
      dsimp only
      constructor
      · exact StoreWF_updateGame (fun g => rfl) hwf
      · exact DIL_updateGame hdil (fun g hg hgc hd => rfl)
  | unlock c u =>
    rw [applyOp]
    cases hc : cmd_unlock st c u with
    | error e => exact ⟨hwf, hdil⟩
    | ok st' =>
      obtain ⟨game, hfind, hcr, hdrawn, hlk, hst'⟩ := cmd_unlock_ok hc
      subst hst'
      dsimp only
      constructor
      · exact StoreWF_updateGame (fun g => rfl) hwf
      · refine DIL_updateGame hdil (fun g hg hgc hd => ?_)
        exfalso
        have hge : g = game :=
          findGame_unique hwf hfind hg (by simpa using hgc)
        subst hge
        rw [hdrawn] at hd
        cases hd
  | draw c u sh =>
    rw [applyOp]
    cases hc : cmd_draw st c u sh with
    | error e => exact ⟨hwf, hdil⟩
    | ok st' =>
      obtain ⟨game, dr, hfind, hcr, hlk, hdrawn, hdr, hst'⟩ :=
        cmd_draw_ok hc
      subst hst'
      dsimp only
      constructor
      · exact StoreWF_updateGame (fun g => rfl) hwf
      · refine DIL_updateGame hdil (fun g hg hgc hd => ?_)
        have hge : g = game :=
          findGame_unique hwf hfind hg (by simpa using hgc)
        subst hge
        exact hlk
  | redraw c u sh =>
    rw [applyOp]
    cases hc : cmd_redraw st c u sh with
    | error e => exact ⟨hwf, hdil⟩
    | ok st' =>
      obtain ⟨game, dr, hfind, hcr, hlk, hdr, hst'⟩ := cmd_redraw_ok hc
      subst hst'
      dsimp only
      constructor
      · exact StoreWF_updateGame (fun g => rfl) hwf
      · refine DIL_updateGame hdil (fun g hg hgc hd => ?_)
        have hge : g = game :=
          findGame_unique hwf hfind hg (by simpa using hgc)
        subst hge
        exact hlk
  | exportResults c u => exact ⟨hwf, hdil⟩
  | purgeConfirm c u =>
    rw [applyOp]
    cases hc : cmd_purge_confirm st c u with
    | error e => exact ⟨hwf, hdil⟩
    | ok st' =>
      obtain ⟨game, hfind, hcr, hst'⟩ := cmd_purge_confirm_ok hc
      subst hst'
      dsimp only
      exact ⟨deleteGame_preserves hwf,
        fun g hg hd => hdil g (mem_deleteGame hg) hd⟩
  | purgeSweep n f =>
    rw [applyOp, auto_purge_expired_games]
    have := foldl_purge_preserves
      (fun s => StoreWF s ∧ DrawnImpliesLocked s)
      (fun s code hs => ⟨deleteGame_preserves hs.1,
        fun g hg hd => hs.2 g (mem_deleteGame hg) hd⟩)
      f (get_expired_games st n) (0, st) ⟨hwf, hdil⟩
    exact this

lemma perform_draw_ok_length {sh ps : List String} {dr : Assignment}
    (h : perform_draw sh ps = .ok dr) : dr.length = ps.length := by
  rw [perform_draw] at h
  split_ifs at h with h1 h2 h3
  dsimp only at h
  cases hv : validate_draw (create_cyclic_assignment sh) ps with
  | some e => rw [hv] at h; dsimp only at h; cases h
  | none =>
    rw [hv] at h
    dsimp only at h
    injection h with hd
    rw [← hd]
    exact ((validate_draw_none_iff _ _).mp hv).1

/-- Claim C5: the draw transition is atomic with respect to the drawn
flag: a successful `cmd_draw` leaves the target game drawn with one
assignment record per participant, a failing `cmd_draw` leaves the
store exactly as it was (the session wrote nothing or rolled back), and
in either case the target game ends up with both the flag and the full
record set, or with neither (given the storage invariant on the
pre-state). -/
theorem cmd_draw_atomic (st : Store) (code : String) (user : Int)
    (sh : List String) (hwf : StoreWF st)
    (hpre : ∀ g ∈ st, AssignInv g) :
    (∀ st', cmd_draw st code user sh = .ok st' →
      ∀ g' ∈ st', g'.game_code = code →
        g'.is_drawn = true
          ∧ g'.assignments.length = g'.participants.length) ∧
    (∀ e, cmd_draw st code user sh = .error e →
      applyOp st (.draw code user sh) = st) ∧
    (∀ g' ∈ applyOp st (.draw code user sh), g'.game_code = code →
      (g'.is_drawn = true
          ∧ g'.assignments.length = g'.participants.length)
        ∨ (g'.is_drawn = false ∧ g'.assignments = [])) := by
  have hok : ∀ st', cmd_draw st code user sh = .ok st' →
      ∀ g' ∈ st', g'.game_code = code →
        g'.is_drawn = true
          ∧ g'.assignments.length = g'.participants.length := by
    intro st' h g' hg' hgc
    obtain ⟨game, dr, hfind, hcr, hlk, hdrawn, hdr, hst'⟩ :=
      cmd_draw_ok h
    subst hst'
    obtain ⟨g0, hg0, he⟩ := mem_updateGame hg'
    by_cases hc : (g0.game_code == code) = true
    · rw [if_pos hc] at he
      have hg0e : g0 = game :=
        findGame_unique hwf hfind hg0 (by simpa using hc)
      subst hg0e
      rw [he]
      exact ⟨rfl, by
        have := perform_draw_ok_length hdr
        simpa using this⟩
    · rw [if_neg hc] at he
      rw [he] at hgc
      exact absurd (by simp [hgc]) hc
  refine ⟨hok, ?_, ?_⟩
  · intro e h
    rw [applyOp, h]
  · intro g' hg' hgc
    cases hres : cmd_draw st code user sh with
    | ok st2 =>
      rw [applyOp, hres] at hg'
      dsimp only at hg'
      exact Or.inl (hok st2 hres g' hg' hgc)
    | error e =>
      rw [applyOp, hres] at hg'
      dsimp only at hg'
      have hinv := hpre g' hg'
      cases hd : g'.is_drawn with
      | true => exact Or.inl ⟨rfl, hinv.2 hd⟩
      | false => exact Or.inr ⟨rfl, hinv.1 hd⟩

/-- Claim C6: the invariant, drawn implies locked, holds in every store
reachable from the empty store by the public operations; in particular
unlock refuses with the dedicated error when the game is drawn, and
draw and redraw succeed only on a locked game. -/
theorem drawn_implies_locked_invariant :
    (∀ ops : List Op, DrawnImpliesLocked (ops.foldl applyOp [])) ∧
    (∀ st code user g, findGame st code = some g →
      g.creator_chat_id = user → g.is_drawn = true →
      cmd_unlock st code user = .error .cannotUnlockAfterDraw) ∧
    (∀ st code user sh st', cmd_draw st code user sh = .ok st' →
      ∃ g, findGame st code = some g ∧ g.is_locked = true) ∧
    (∀ st code user sh st', cmd_redraw st code user sh = .ok st' →
      ∃ g, findGame st code = some g ∧ g.is_locked = true) := by
  refine ⟨?_, ?_, ?_, ?_⟩
  · intro ops
    have hgen : ∀ ops : List Op, ∀ st : Store,
        StoreWF st ∧ DrawnImpliesLocked st →
        StoreWF (ops.foldl applyOp st)
          ∧ DrawnImpliesLocked (ops.foldl applyOp st) := by
      intro ops
      induction ops with
      | nil => intro st h; exact h
      | cons op t ih =>
        intro st h
        rw [List.foldl_cons]
        exact ih _ (applyOp_preserves st op h)
    refine (hgen ops [] ⟨List.nodup_nil, ?_⟩).2
    intro g hg
    cases hg
  · intro st code user g hf hcr hd
    exact cmd_unlock_after_draw hf hcr hd
  · intro st code user sh st' h
    obtain ⟨game, dr, hfind, hcr, hlk, hdrawn, hdr, hst'⟩ :=
      cmd_draw_ok h
    exact ⟨game, hfind, hlk⟩
  · intro st code user sh st' h
    obtain ⟨game, dr, hfind, hcr, hlk, hdr, hst'⟩ := cmd_redraw_ok h
    exact ⟨game, hfind, hlk⟩

/-- Claim C4: the lifecycle guards, each with its failure kind: a fresh
game is open (neither locked nor drawn); locking with 2 participants
fails as insufficient while with 3 it succeeds and sets the locked
flag; joining a locked game fails as locked; drawing an unlocked game
fails as not locked; a second draw after a successful one fails as
already drawn; unlocking after a successful draw fails as
cannot-unlock-after-draw. -/
theorem state_machine_guards :
    (∀ code user now, (mkGame code user now).is_locked = false ∧
      (mkGame code user now).is_drawn = false) ∧
    (∀ st code user g, findGame st code = some g →
      g.creator_chat_id = user → g.is_locked = false →
      g.participants.length = 2 →
      cmd_lock st code user = .error .insufficientParticipants) ∧
    (∀ st code user g, findGame st code = some g →
      g.creator_chat_id = user → g.is_locked = false →
      g.participants.length = 3 →
      ∃ st' g', cmd_lock st code user = .ok st' ∧
        findGame st' code = some g' ∧ g'.is_locked = true) ∧
    (∀ st code name g, findGame st code = some g → g.is_locked = true →
      cmd_join st code name true = .error .gameLockedError) ∧
    (∀ st code user sh g, findGame st code = some g →
      g.creator_chat_id = user → g.is_locked = false →
      cmd_draw st code user sh = .error .notLockedError) ∧
    (∀ st code user sh sh' st', cmd_draw st code user sh = .ok st' →
      cmd_draw st' code user sh' = .error .alreadyDrawnError) ∧
    (∀ st code user sh st', cmd_draw st code user sh = .ok st' →
      cmd_unlock st' code user = .error .cannotUnlockAfterDraw) := by
  refine ⟨fun _ _ _ => ⟨rfl, rfl⟩, ?_, ?_, ?_, ?_, ?_, ?_⟩
  · intro st code user g hf hcr hlk hcnt
    exact cmd_lock_insufficient hf hcr hlk
      (by rw [MIN_PARTICIPANTS]; omega)
  · intro st code user g hf hcr hlk hcnt
    refine ⟨updateGame st code (fun x => { x with is_locked := true }),
      { g with is_locked := true }, ?_, ?_, rfl⟩
    · exact cmd_lock_success hf hcr hlk
        (by rw [MIN_PARTICIPANTS]; omega)
    · rw [findGame_updateGame st code
        (fun x => { x with is_locked := true }) (fun x => rfl), hf]
      rfl
  · intro st code name g hf hlk
    exact cmd_join_locked hf hlk
  · intro st code user sh g hf hcr hlk
    exact cmd_draw_not_locked hf hcr hlk
  · intro st code user sh sh' st' h
    obtain ⟨game, dr, hfind, hcr, hlk, hdrawn, hdr, hst'⟩ :=
      cmd_draw_ok h
    subst hst'
    have hfind' : findGame
        (updateGame st code
          (fun g => { g with assignments := dr, is_drawn := true })) code
        = some { game with assignments := dr, is_drawn := true } := by
      rw [findGame_updateGame st code
        (fun g => { g with assignments := dr, is_drawn := true })
        (fun x => rfl), hfind]
      rfl
    exact cmd_draw_already_drawn hfind' hcr hlk rfl
  · intro st code user sh st' h
    obtain ⟨game, dr, hfind, hcr, hlk, hdrawn, hdr, hst'⟩ :=
      cmd_draw_ok h
    subst hst'
    have hfind' : findGame
        (updateGame st code
          (fun g => { g with assignments := dr, is_drawn := true })) code
        = some { game with assignments := dr, is_drawn := true } := by
      rw [findGame_updateGame st code
        (fun g => { g with assignments := dr, is_drawn := true })
        (fun x => rfl), hfind]
      rfl
    exact cmd_unlock_after_draw hfind' hcr rfl

/-- Claim C8: every guarded transition (lock, unlock, draw, redraw,
delete) invoked by a caller who is not the creator of the game fails
with the permission-denied error and leaves the store unchanged. -/
theorem permission_guards (st : Store) (code : String) (user : Int)
    (sh : List String) (g : Game) (hf : findGame st code = some g)
    (hne : g.creator_chat_id ≠ user) :
    (cmd_lock st code user = .error .permissionDenied ∧
      applyOp st (.lock code user) = st) ∧
    (cmd_unlock st code user = .error .permissionDenied ∧
      applyOp st (.unlock code user) = st) ∧
    (cmd_draw st code user sh = .error .permissionDenied ∧
      applyOp st (.draw code user sh) = st) ∧
    (cmd_redraw st code user sh = .error .permissionDenied ∧
      applyOp st (.redraw code user sh) = st) ∧
    (cmd_purge_confirm st code user = .error .permissionDenied ∧
      applyOp st (.purgeConfirm code user) = st) := by
  have h1 := cmd_lock_perm hf hne
  have h2 := cmd_unlock_perm hf hne
  have h3 := @cmd_draw_perm st code user sh g hf hne
  have h4 := @cmd_redraw_perm st code user sh g hf hne
  have h5 := cmd_purge_confirm_perm hf hne
  exact ⟨⟨h1, by rw [applyOp, h1]⟩, ⟨h2, by rw [applyOp, h2]⟩,
    ⟨h3, by rw [applyOp, h3]⟩, ⟨h4, by rw [applyOp, h4]⟩,
    ⟨h5, by rw [applyOp, h5]⟩⟩

/-- Witness for C4 at concrete games: a fresh game is open; each guard
fires at a concrete store exercising it. -/
theorem state_machine_guards_witness :
    ((mkGame ("SANTA42") 1 0).is_locked = false ∧
      (mkGame ("SANTA42") 1 0).is_drawn = false) ∧
    cmd_lock [⟨"XMAS7K", 1, false, false, none, ["Ann", "Bo"], []⟩] ("XMAS7K") 1 = .error .insufficientParticipants ∧
    (∃ st' g', cmd_lock [⟨"SANTA42", 1, false, false, none, ["Ann", "Bo", "Cid"], []⟩] ("SANTA42") 1 = .ok st' ∧
      findGame st' ("SANTA42") = some g' ∧ g'.is_locked = true) ∧
    cmd_join [(⟨"SANTA42", 1, true, false, none, ["Ann", "Bo", "Cid"], []⟩ : Game)] ("SANTA42") ("Dan") true
      = .error .gameLockedError ∧
    cmd_draw [⟨"SANTA42", 1, false, false, none, ["Ann", "Bo", "Cid"], []⟩] ("SANTA42") 1 ["Bo", "Cid", "Ann"]
      = .error .notLockedError ∧
    cmd_draw [(⟨"SANTA42", 1, true, true, none, ["Ann", "Bo", "Cid"], [("Bo", "Cid"), ("Cid", "Ann"), ("Ann", "Bo")]⟩ : Game)] ("SANTA42") 1 ["Cid", "Ann", "Bo"]
      = .error .alreadyDrawnError ∧
    cmd_unlock [(⟨"SANTA42", 1, true, true, none, ["Ann", "Bo", "Cid"], [("Bo", "Cid"), ("Cid", "Ann"), ("Ann", "Bo")]⟩ : Game)] ("SANTA42") 1
      = .error .cannotUnlockAfterDraw :=
  ⟨state_machine_guards.1 ("SANTA42") 1 0,
   state_machine_guards.2.1 [⟨"XMAS7K", 1, false, false, none, ["Ann", "Bo"], []⟩] ("XMAS7K") 1
     ⟨"XMAS7K", 1, false, false, none, ["Ann", "Bo"], []⟩ (by decide) rfl rfl rfl,
   state_machine_guards.2.2.1 [⟨"SANTA42", 1, false, false, none, ["Ann", "Bo", "Cid"], []⟩] ("SANTA42") 1
     ⟨"SANTA42", 1, false, false, none, ["Ann", "Bo", "Cid"], []⟩ (by decide) rfl rfl rfl,
   state_machine_guards.2.2.2.1 [(⟨"SANTA42", 1, true, false, none, ["Ann", "Bo", "Cid"], []⟩ : Game)] ("SANTA42") ("Dan")
     ⟨"SANTA42", 1, true, false, none, ["Ann", "Bo", "Cid"], []⟩ (by decide) rfl,
   state_machine_guards.2.2.2.2.1 [⟨"SANTA42", 1, false, false, none, ["Ann", "Bo", "Cid"], []⟩] ("SANTA42") 1
     ["Bo", "Cid", "Ann"] ⟨"SANTA42", 1, false, false, none, ["Ann", "Bo", "Cid"], []⟩ (by decide) rfl rfl,
   state_machine_guards.2.2.2.2.2.1 [⟨"SANTA42", 1, true, false, none, ["Ann", "Bo", "Cid"], []⟩] ("SANTA42") 1
     ["Bo", "Cid", "Ann"] ["Cid", "Ann", "Bo"]
     [(⟨"SANTA42", 1, true, true, none, ["Ann", "Bo", "Cid"], [("Bo", "Cid"), ("Cid", "Ann"), ("Ann", "Bo")]⟩ : Game)] (by decide),
   state_machine_guards.2.2.2.2.2.2 [⟨"SANTA42", 1, true, false, none, ["Ann", "Bo", "Cid"], []⟩] ("SANTA42") 1
     ["Bo", "Cid", "Ann"] [(⟨"SANTA42", 1, true, true, none, ["Ann", "Bo", "Cid"], [("Bo", "Cid"), ("Cid", "Ann"), ("Ann", "Bo")]⟩ : Game)] (by decide)⟩

/-- Witness for C5 at a concrete locked three-player game. -/
theorem cmd_draw_atomic_witness :
    (∀ st', cmd_draw [⟨"SANTA42", 1, true, false, none, ["Ann", "Bo", "Cid"], []⟩] ("SANTA42") 1 ["Bo", "Cid", "Ann"]
      = .ok st' → ∀ g' ∈ st', g'.game_code = ("SANTA42") →
        g'.is_drawn = true
          ∧ g'.assignments.length = g'.participants.length) ∧
    (∀ e, cmd_draw [⟨"SANTA42", 1, true, false, none, ["Ann", "Bo", "Cid"], []⟩] ("SANTA42") 1 ["Bo", "Cid", "Ann"]
      = .error e →
      applyOp [⟨"SANTA42", 1, true, false, none, ["Ann", "Bo", "Cid"], []⟩] (.draw ("SANTA42") 1 ["Bo", "Cid", "Ann"])
        = [⟨"SANTA42", 1, true, false, none, ["Ann", "Bo", "Cid"], []⟩]) ∧
    (∀ g' ∈ applyOp [⟨"SANTA42", 1, true, false, none, ["Ann", "Bo", "Cid"], []⟩]
        (.draw ("SANTA42") 1 ["Bo", "Cid", "Ann"]),
      g'.game_code = ("SANTA42") →
      (g'.is_drawn = true
          ∧ g'.assignments.length = g'.participants.length)
        ∨ (g'.is_drawn = false ∧ g'.assignments = [])) :=
  cmd_draw_atomic [⟨"SANTA42", 1, true, false, none, ["Ann", "Bo", "Cid"], []⟩] ("SANTA42") 1 ["Bo", "Cid", "Ann"]
    (by rw [StoreWF]; decide)
    (by
      intro g hg
      have hge : g = ⟨"SANTA42", 1, true, false, none,
          ["Ann", "Bo", "Cid"], []⟩ := List.mem_singleton.mp hg
      subst hge
      rw [AssignInv]
      exact ⟨fun _ => rfl, fun h => by cases h⟩)

/-- Witness for C6: the invariant holds after a concrete operation
sequence, and unlock refuses on a concrete drawn game. -/
theorem drawn_implies_locked_invariant_witness :
    DrawnImpliesLocked
      ([Op.newGame ("SANTA42") 1 0, Op.join ("SANTA42") ("Ann") true,
        Op.join ("SANTA42") ("Bo") true, Op.join ("SANTA42") ("Cid") true,
        Op.lock ("SANTA42") 1,
        Op.draw ("SANTA42") 1 ["Bo", "Cid", "Ann"]].foldl applyOp []) ∧
    cmd_unlock [(⟨"SANTA42", 1, true, true, none, ["Ann", "Bo", "Cid"], [("Bo", "Cid"), ("Cid", "Ann"), ("Ann", "Bo")]⟩ : Game)] ("SANTA42") 1
      = .error .cannotUnlockAfterDraw :=
  ⟨drawn_implies_locked_invariant.1
      [Op.newGame ("SANTA42") 1 0, Op.join ("SANTA42") ("Ann") true,
        Op.join ("SANTA42") ("Bo") true, Op.join ("SANTA42") ("Cid") true,
        Op.lock ("SANTA42") 1,
        Op.draw ("SANTA42") 1 ["Bo", "Cid", "Ann"]],
   drawn_implies_locked_invariant.2.1 [(⟨"SANTA42", 1, true, true, none, ["Ann", "Bo", "Cid"], [("Bo", "Cid"), ("Cid", "Ann"), ("Ann", "Bo")]⟩ : Game)] ("SANTA42") 1
     ⟨"SANTA42", 1, true, true, none, ["Ann", "Bo", "Cid"], [("Bo", "Cid"), ("Cid", "Ann"), ("Ann", "Bo")]⟩ (by decide) rfl rfl⟩

/-- Witness for C8: a caller with identity 2 against a game created by
identity 1. -/
theorem permission_guards_witness :
    (cmd_lock [⟨"SANTA42", 1, true, false, none, ["Ann", "Bo", "Cid"], []⟩] ("SANTA42") 2 = .error .permissionDenied ∧
      applyOp [⟨"SANTA42", 1, true, false, none, ["Ann", "Bo", "Cid"], []⟩] (.lock ("SANTA42") 2) = [⟨"SANTA42", 1, true, false, none, ["Ann", "Bo", "Cid"], []⟩]) ∧
    (cmd_unlock [⟨"SANTA42", 1, true, false, none, ["Ann", "Bo", "Cid"], []⟩] ("SANTA42") 2 = .error .permissionDenied ∧
      applyOp [⟨"SANTA42", 1, true, false, none, ["Ann", "Bo", "Cid"], []⟩] (.unlock ("SANTA42") 2) = [⟨"SANTA42", 1, true, false, none, ["Ann", "Bo", "Cid"], []⟩]) ∧
    (cmd_draw [⟨"SANTA42", 1, true, false, none, ["Ann", "Bo", "Cid"], []⟩] ("SANTA42") 2 ["Bo", "Cid", "Ann"]
        = .error .permissionDenied ∧
      applyOp [⟨"SANTA42", 1, true, false, none, ["Ann", "Bo", "Cid"], []⟩] (.draw ("SANTA42") 2 ["Bo", "Cid", "Ann"])
        = [⟨"SANTA42", 1, true, false, none, ["Ann", "Bo", "Cid"], []⟩]) ∧
    (cmd_redraw [⟨"SANTA42", 1, true, false, none, ["Ann", "Bo", "Cid"], []⟩] ("SANTA42") 2 ["Bo", "Cid", "Ann"]
        = .error .permissionDenied ∧
      applyOp [⟨"SANTA42", 1, true, false, none, ["Ann", "Bo", "Cid"], []⟩] (.redraw ("SANTA42") 2 ["Bo", "Cid", "Ann"])
        = [⟨"SANTA42", 1, true, false, none, ["Ann", "Bo", "Cid"], []⟩]) ∧
    (cmd_purge_confirm [⟨"SANTA42", 1, true, false, none, ["Ann", "Bo", "Cid"], []⟩] ("SANTA42") 2
        = .error .permissionDenied ∧
      applyOp [⟨"SANTA42", 1, true, false, none, ["Ann", "Bo", "Cid"], []⟩] (.purgeConfirm ("SANTA42") 2) = [⟨"SANTA42", 1, true, false, none, ["Ann", "Bo", "Cid"], []⟩]) :=
  permission_guards [⟨"SANTA42", 1, true, false, none, ["Ann", "Bo", "Cid"], []⟩] ("SANTA42") 2 ["Bo", "Cid", "Ann"]
    ⟨"SANTA42", 1, true, false, none, ["Ann", "Bo", "Cid"], []⟩ (by decide) (by decide)

lemma purge_foldl (F : String → Bool) :
    ∀ (l : List Game) (c : Nat) (s : Store),
      l.foldl (fun acc g => if F g.game_code then acc
        else (acc.1 + 1, deleteGame acc.2 g.game_code)) (c, s)
      = (c + (l.filter (fun g => ! F g.game_code)).length,
         s.filter (fun x => ! (l.filter (fun g => ! F g.game_code)).any
           (fun e => e.game_code == x.game_code))) := by
  intro l
  induction l with
  | nil =>
    intro c s
    simp
  | cons g t ih =>
    intro c s
    rw [List.foldl_cons]
    by_cases hF : F g.game_code
    · rw [if_pos hF, ih c s]
      have hfc : (g :: t).filter (fun g => ! F g.game_code)
          = t.filter (fun g => ! F g.game_code) := by
        rw [List.filter_cons_of_neg (by simp [hF])]
      rw [hfc]
    · rw [if_neg hF, ih (c + 1) (deleteGame s g.game_code)]
      have hfc : (g :: t).filter (fun g => ! F g.game_code)
          = g :: t.filter (fun g => ! F g.game_code) := by
        rw [List.filter_cons_of_pos (by simp [hF])]
      rw [hfc]
      refine congrArg₂ Prod.mk (by simp [Nat.add_comm, Nat.add_assoc,
        Nat.add_left_comm]) ?_
      rw [deleteGame, List.filter_filter]
      apply List.filter_congr
      intro x hx
      by_cases hxe : g.game_code = x.game_code
      · simp [hxe]
      · simp only [List.any_cons]
        rw [show (g.game_code == x.game_code) = false by
          simp [hxe]]
        rw [show (x.game_code == g.game_code) = false by
          simp
          intro h
          exact hxe h.symm]
        simp [Bool.and_comm]

/-- Claim C7: after the automatic purge sweep at time `now` (with the
deletion-failure oracle `F`), every game with a non-null expiration
timestamp at or before `now` whose deletion did not fail is gone from
the store, every non-expired game (future or null timestamp) is still
there unchanged, nothing new appears, each deletion is attempted
independently of failures on other games (the conclusion holds for an
arbitrary failure oracle), and the returned count is the number of
games successfully purged. -/
theorem purge_sweep_spec (st : Store) (now : Int) (F : String → Bool)
    (hwf : StoreWF st) :
    (∀ g ∈ st, isExpired g now = true → F g.game_code = false →
      g ∉ (auto_purge_expired_games st now F).2) ∧
    (∀ g ∈ st, isExpired g now = false →
      g ∈ (auto_purge_expired_games st now F).2) ∧
    (∀ g' ∈ (auto_purge_expired_games st now F).2, g' ∈ st) ∧
    (auto_purge_expired_games st now F).1
      = ((get_expired_games st now).filter
          (fun g => ! F g.game_code)).length := by
  rw [auto_purge_expired_games, purge_foldl]
  refine ⟨?_, ?_, ?_, by simp⟩
  · intro g hg hexp hF hmem
    have hpred := (List.mem_filter.mp hmem).2
    have hgD : g ∈ (get_expired_games st now).filter
        (fun g => ! F g.game_code) := by
      rw [List.mem_filter]
      refine ⟨?_, by simp [hF]⟩
      rw [get_expired_games, List.mem_filter]
      exact ⟨hg, hexp⟩
    rw [Bool.not_eq_true', List.any_eq_false] at hpred
    exact absurd (by simp) (hpred g hgD)
  · intro g hg hexp
    rw [List.mem_filter]
    refine ⟨hg, ?_⟩
    rw [Bool.not_eq_true', List.any_eq_false]
    intro e heD
    have heE := (List.mem_filter.mp heD).1
    rw [get_expired_games, List.mem_filter] at heE
    obtain ⟨heSt, heExp⟩ := heE
    intro hbeq
    have hec : e.game_code = g.game_code := by simpa using hbeq
    have : e = g := List.inj_on_of_nodup_map hwf heSt hg hec
    rw [this] at heExp
    rw [heExp] at hexp
    cases hexp
  · intro g' hg'
    exact (List.mem_filter.mp hg').1

/-- Witness for C7: a store with one past-expiry game, one
future-expiry game and one never-expiring game, swept at time 100 with
no deletion failures. -/
theorem purge_sweep_spec_witness :
    (∀ g ∈ ([⟨"SANTA42", 1, false, false, some 50, ["Ann"], []⟩, ⟨"XMAS7K", 1, false, false, some 200, ["Bo"], []⟩, ⟨"GIFT9Z", 1, false, false, none, ["Cid"], []⟩] : Store), isExpired g 100 = true →
      (fun _ : String => false) g.game_code = false →
      g ∉ (auto_purge_expired_games [⟨"SANTA42", 1, false, false, some 50, ["Ann"], []⟩, ⟨"XMAS7K", 1, false, false, some 200, ["Bo"], []⟩, ⟨"GIFT9Z", 1, false, false, none, ["Cid"], []⟩] 100
        (fun _ => false)).2) ∧
    (∀ g ∈ ([⟨"SANTA42", 1, false, false, some 50, ["Ann"], []⟩, ⟨"XMAS7K", 1, false, false, some 200, ["Bo"], []⟩, ⟨"GIFT9Z", 1, false, false, none, ["Cid"], []⟩] : Store), isExpired g 100 = false →
      g ∈ (auto_purge_expired_games [⟨"SANTA42", 1, false, false, some 50, ["Ann"], []⟩, ⟨"XMAS7K", 1, false, false, some 200, ["Bo"], []⟩, ⟨"GIFT9Z", 1, false, false, none, ["Cid"], []⟩] 100 (fun _ => false)).2) ∧
    (∀ g' ∈ (auto_purge_expired_games [⟨"SANTA42", 1, false, false, some 50, ["Ann"], []⟩, ⟨"XMAS7K", 1, false, false, some 200, ["Bo"], []⟩, ⟨"GIFT9Z", 1, false, false, none, ["Cid"], []⟩] 100
        (fun _ => false)).2, g' ∈ ([⟨"SANTA42", 1, false, false, some 50, ["Ann"], []⟩, ⟨"XMAS7K", 1, false, false, some 200, ["Bo"], []⟩, ⟨"GIFT9Z", 1, false, false, none, ["Cid"], []⟩] : Store)) ∧
    (auto_purge_expired_games [⟨"SANTA42", 1, false, false, some 50, ["Ann"], []⟩, ⟨"XMAS7K", 1, false, false, some 200, ["Bo"], []⟩, ⟨"GIFT9Z", 1, false, false, none, ["Cid"], []⟩] 100 (fun _ => false)).1
      = ((get_expired_games [⟨"SANTA42", 1, false, false, some 50, ["Ann"], []⟩, ⟨"XMAS7K", 1, false, false, some 200, ["Bo"], []⟩, ⟨"GIFT9Z", 1, false, false, none, ["Cid"], []⟩] 100).filter
          (fun g => ! (fun _ : String => false) g.game_code)).length :=
  purge_sweep_spec [⟨"SANTA42", 1, false, false, some 50, ["Ann"], []⟩, ⟨"XMAS7K", 1, false, false, some 200, ["Bo"], []⟩, ⟨"GIFT9Z", 1, false, false, none, ["Cid"], []⟩] 100 (fun _ => false)
    (by rw [StoreWF]; decide)

lemma suffix_chars_toUpper : ∀ c ∈ SUFFIX_CHARS, c.toUpper = c := by
  decide

lemma suffix_chars_toLower_toUpper :
    ∀ c ∈ SUFFIX_CHARS, c.toLower.toUpper = c := by
  decide

lemma find?_prefixes (p : List Char) (hp : p ∈ PREFIXES)
    (s' : List Char) :
    PREFIXES.find? (fun q => q.isPrefixOf (p ++ s')) = some p := by
  fin_cases hp <;> simp [PREFIXES, List.find?_cons, List.isPrefixOf]

lemma validate_eval (code : List Char) (p : List Char)
    (hp : p ∈ PREFIXES) (hlen6 : 6 ≤ code.length)
    (hlen10 : code.length ≤ 10)
    (hup : code.map Char.toUpper = p ++ (code.drop p.length).map
      Char.toUpper)
    (hsuf1 : 2 ≤ code.length - p.length)
    (hsuf2 : code.length - p.length ≤ 4)
    (hallow : ∀ c ∈ code.drop p.length, c.toUpper ∈ SUFFIX_CHARS) :
    validate_game_code_format code = true := by
  have hfind : PREFIXES.find?
      (fun q => q.isPrefixOf (code.map Char.toUpper)) = some p := by
    rw [hup]
    exact find?_prefixes p hp _
  rw [validate_game_code_format]
  rw [if_neg (by
    intro he
    rw [List.isEmpty_iff] at he
    rw [he] at hlen6
    simp at hlen6)]
  rw [if_neg (by
    intro hor
    rcases Bool.or_eq_true_iff.mp hor with hlt | hgt
    · rw [decide_eq_true_eq] at hlt
      omega
    · rw [decide_eq_true_eq] at hgt
      omega)]
  have hany : PREFIXES.any
      (fun q => q.isPrefixOf (code.map Char.toUpper)) = true := by
    rw [List.any_eq_true]
    have hsat := List.find?_some
      (p := fun q : List Char => q.isPrefixOf (code.map Char.toUpper))
      hfind
    exact ⟨p, List.mem_of_find?_eq_some hfind, hsat⟩
  rw [if_neg (by rw [hany]; simp)]
  rw [hfind]
  dsimp only
  rw [if_neg (by
    intro hor
    rw [List.length_drop] at hor
    rcases Bool.or_eq_true_iff.mp hor with hlt | hgt
    · rw [decide_eq_true_eq, MIN_SUFFIX_LENGTH] at hlt
      omega
    · rw [decide_eq_true_eq, MAX_SUFFIX_LENGTH] at hgt
      omega)]
  rw [List.all_eq_true]
  intro c hc
  rw [List.mem_map] at hc
  obtain ⟨c0, hc0, hcu⟩ := hc
  rw [← hcu]
  have hmem := hallow c0 hc0
  exact List.elem_iff.mpr hmem

/-- Claim C10: every code the generator can produce (any prefix from
the default list, any suffix drawn from the allowed characters with the
length chosen for any `suffix_length` argument, including the None
case) passes `validate_game_code_format`, and so does its lowercased
form (round-trip, case-insensitive on input). -/
theorem generated_code_valid (p : List Char) (hp : p ∈ PREFIXES)
    (suffix_length : Option Nat) (randLen : Nat) (suffix : List Char)
    (hr1 : MIN_SUFFIX_LENGTH ≤ randLen)
    (hr2 : randLen ≤ MAX_SUFFIX_LENGTH)
    (hlen : suffix.length = suffixLengthFor suffix_length randLen)
    (hchar : ∀ c ∈ suffix, c ∈ SUFFIX_CHARS) :
    validate_game_code_format (generate_code p suffix) = true ∧
    validate_game_code_format
      ((generate_code p suffix).map Char.toLower) = true := by
  have hplen : p.length = 4 ∨ p.length = 5 := by
    fin_cases hp
    · right; rfl
    · left; rfl
    · left; rfl
    · left; rfl
    · right; rfl
    · right; rfl
  have hpupper : p.map Char.toUpper = p := by
    fin_cases hp <;> decide
  have hplower : (p.map Char.toLower).map Char.toUpper = p := by
    fin_cases hp <;> decide
  rw [MIN_SUFFIX_LENGTH] at hr1
  rw [MAX_SUFFIX_LENGTH] at hr2
  have hs1 : 2 ≤ suffix.length := by
    rw [hlen, suffixLengthFor.eq_def]
    cases suffix_length with
    | none => exact hr1
    | some l =>
      dsimp only
      rw [MIN_SUFFIX_LENGTH]
      exact Nat.le_max_left 2 _
  have hs2 : suffix.length ≤ 4 := by
    rw [hlen, suffixLengthFor.eq_def]
    cases suffix_length with
    | none => exact hr2
    | some l =>
      dsimp only
      rw [MIN_SUFFIX_LENGTH, MAX_SUFFIX_LENGTH]
      exact Nat.max_le.mpr ⟨by omega, Nat.min_le_right l 4⟩
  constructor
  · apply validate_eval (generate_code p suffix) p hp
    · rw [generate_code, List.length_append]
      omega
    · rw [generate_code, List.length_append]
      omega
    · rw [generate_code, List.map_append, hpupper, List.drop_left]
    · rw [generate_code, List.length_append]
      omega
    · rw [generate_code, List.length_append]
      omega
    · rw [generate_code, List.drop_left]
      intro c hc
      rw [suffix_chars_toUpper c (hchar c hc)]
      exact hchar c hc
  · apply validate_eval ((generate_code p suffix).map Char.toLower) p hp
    · rw [generate_code, List.length_map, List.length_append]
      omega
    · rw [generate_code, List.length_map, List.length_append]
      omega
    · rw [generate_code, List.map_append, List.map_append, hplower]
      rw [List.drop_left' (by rw [List.length_map])]
    · rw [generate_code, List.length_map, List.length_append]
      omega
    · rw [generate_code, List.length_map, List.length_append]
      omega
    · rw [generate_code, List.map_append,
        List.drop_left' (by rw [List.length_map])]
      intro c hc
      rw [List.mem_map] at hc
      obtain ⟨c0, hc0, hcl⟩ := hc
      rw [← hcl, suffix_chars_toLower_toUpper c0 (hchar c0 hc0)]
      exact hchar c0 hc0

/-- Witness for C10: prefix SANTA with suffix 42 (the SANTA42 example
of the source), validated both as generated and lowercased. -/
theorem generated_code_valid_witness :
    validate_game_code_format
      (generate_code ['S', 'A', 'N', 'T', 'A'] ['4', '2']) = true ∧
    validate_game_code_format
      ((generate_code ['S', 'A', 'N', 'T', 'A'] ['4', '2']).map
        Char.toLower) = true :=
  generated_code_valid ['S', 'A', 'N', 'T', 'A'] (by decide) none 2
    ['4', '2'] (by decide) (by decide) (by decide) (by decide)
